import Mathlib

/-!
Verification development for the Compare-App TXT comparison engine
(src/core/comparators/txt/txt_comparison.py).

The engine segments two line sequences into fixed-size pages, diffs each
page with Python's difflib.Differ, and folds per-page statistics into
document analytics.  We embed, faithfully from the source:

* difflib.SequenceMatcher (b2j with junk and autojunk filtering,
  find_longest_match with the four junk/non-junk extension loops,
  get_matching_blocks with adjacent-block merging, get_opcodes, ratio,
  quick_ratio, real_quick_ratio);
* difflib.Differ (compare, _fancy_replace, _fancy_helper, _plain_replace,
  _qformat with intraline tag construction and _keep_original_ws);
* the comparator itself: compare_page_worker, load_file_by_pages,
  compare_pages_streaming (with the worker completion order and the
  per-page failure substitution made explicit parameters),
  calculate_analytics, and the compare() driver.

Floats are modelled as rationals; Python lists as Lean lists; a diff
output line "<tag> <text>" is modelled structurally as a (tag, text) pair,
which is faithful because every line the differ yields starts with one of
the four two-character tags and the startswith tests in the source
discriminate exactly on that tag.

Recursions that are not structural in the source (get_matching_blocks,
_fancy_replace/_fancy_helper) are written with an explicit fuel argument
so that every definition reduces in the kernel; the top-level wrappers
pass fuel that provably dominates the recursion depth, and fuel-stability
lemmas are proved below.
-/

namespace CompareApp

/-- Python str.isspace on the ASCII whitespace characters (sufficient for
the texts modelled here). -/
def isPySpace (c : Char) : Bool :=
  c = ' ' || c = '\t' || c = '\n' || c = '\r' || c = '\x0b' || c = '\x0c'

/-- difflib.IS_CHARACTER_JUNK: a character is junk when it is a space or a
tab (the default charjunk of difflib.Differ). -/
def isCharJunk (c : Char) : Bool := c = ' ' || c = '\t'

/-- The junk predicate of SequenceMatcher(None, ...): nothing is junk. -/
def noJunk {α : Type} : α → Bool := fun _ => false

/-- Helper for Python str.split(): number of maximal nonspace runs.
The Bool argument records whether we are inside a word. -/
def countWordsAux : Bool → List Char → Nat
  | _, [] => 0
  | inWord, c :: cs =>
    if isPySpace c then countWordsAux false cs
    else (if inWord then 0 else 1) + countWordsAux true cs

/-- len(s.split()) for a Python string. -/
def countWords (s : List Char) : Nat := countWordsAux false s

/-- Python str.rstrip(): drop trailing whitespace. -/
def rstripChars (s : List Char) : List Char :=
  ((s.reverse).dropWhile isPySpace).reverse

/-!
Python's float arithmetic is modelled by exact rational arithmetic.  The
standard +, *, - and ⁻¹ on ℚ are irreducible by design, so definitions
built from them cannot be evaluated by the kernel; the embedding therefore
computes with the following mkRat-based operations, and the qadd_eq /
qsub_eq / qmul_eq / qdivNat_eq / qsum_eq / qofNat_eq lemmas below prove
that they are exactly the standard rational operations.  Every divisor in
the source is a natural number (a character or unit count), so a
Nat-divisor division suffices.
-/

/-- The rational value of a natural number, built with mkRat. -/
def qofNat (n : ℕ) : ℚ := mkRat n 1

/-- Addition on ℚ, computed with mkRat. -/
def qadd (a b : ℚ) : ℚ := mkRat (a.num * b.den + b.num * a.den) (a.den * b.den)

/-- Subtraction on ℚ, computed with mkRat. -/
def qsub (a b : ℚ) : ℚ := mkRat (a.num * b.den - b.num * a.den) (a.den * b.den)

/-- Multiplication on ℚ, computed with mkRat. -/
def qmul (a b : ℚ) : ℚ := mkRat (a.num * b.num) (a.den * b.den)

/-- Division of a rational by a natural number, computed with mkRat. -/
def qdivNat (a : ℚ) (n : ℕ) : ℚ := mkRat a.num (a.den * n)

/-- Sum of a list of rationals, computed with qadd. -/
def qsum (l : List ℚ) : ℚ := l.foldr qadd (qofNat 0)

/-- Python int() on a finite float value: truncation toward zero
(the ceiling for negative values, the floor otherwise). -/
def pyInt (q : ℚ) : ℤ := if q < 0 then q.ceil else q.floor

/-- Python l[::10]: every tenth element of a list, starting at index 0. -/
def everyTenth {α : Type} (l : List α) : List α :=
  (((List.range l.length).filter (fun i => i % 10 = 0)).filterMap l.get?)

/-! ## SequenceMatcher -/

/-- Ascending list of the positions of x in b (the entry of the b2j
dictionary for x, before junk filtering). -/
def positions {α : Type} [DecidableEq α] (x : α) (b : List α) : List Nat :=
  (List.range b.length).filter (fun i => decide (b.get? i = some x))

/-- The b2j table of SequenceMatcher.__chain_b: positions of x in b, with
junk elements removed, and (autojunk) popular elements removed when b has
at least 200 elements and x occurs in more than len(b)/100 + 1 of them. -/
def b2j {α : Type} [DecidableEq α] (junk : α → Bool) (b : List α) (x : α) :
    List Nat :=
  if junk x then []
  else
    let idxs := positions x b
    if 200 ≤ b.length ∧ b.length / 100 + 1 < idxs.length then [] else idxs

/-- The running best match of find_longest_match. -/
structure FlmBest where
  besti : Nat
  bestj : Nat
  bestsize : Nat
deriving DecidableEq

/-- Inner loop of find_longest_match over one row i: for each position j
of a[i] in b (already restricted to [blo, bhi)), newj2len[j] is
j2len.get(j-1, 0) + 1, and the best match is updated when it grows.
j2len is the table from the previous row; acc accumulates newj2len. -/
def flmRow (j2len : Nat → Nat) (i : Nat) :
    List Nat → (Nat → Nat) → FlmBest → (Nat → Nat) × FlmBest
  | [], acc, best => (acc, best)
  | j :: js, acc, best =>
    let prev := if j = 0 then 0 else j2len (j - 1)
    let k := prev + 1
    let acc2 := fun j2 => if j2 = j then k else acc j2
    let best2 : FlmBest :=
      if best.bestsize < k then ⟨i + 1 - k, j + 1 - k, k⟩ else best
    flmRow j2len i js acc2 best2

/-- Outer loop of find_longest_match over the rows i in [alo, ahi). -/
def flmLoop {α : Type} [DecidableEq α] [Inhabited α] (a : List α)
    (bjs : α → List Nat) (blo bhi : Nat) :
    List Nat → (Nat → Nat) → FlmBest → FlmBest
  | [], _, best => best
  | i :: rest, j2len, best =>
    let js := (bjs (a.getD i default)).filter (fun j => decide (blo ≤ j ∧ j < bhi))
    let p := flmRow j2len i js (fun _ => 0) best
    flmLoop a bjs blo bhi rest p.1 p.2

/-- One of the two downward extension loops of find_longest_match:
while besti > alo and bestj > blo and junkness of b[bestj-1] matches
wantJunk and a[besti-1] == b[bestj-1], grow the match downward.
Structural recursion on besti. -/
def extLo {α : Type} [DecidableEq α] [Inhabited α] (a b : List α)
    (junk : α → Bool) (alo blo : Nat) (wantJunk : Bool) :
    Nat → Nat → Nat → Nat × Nat × Nat
  | 0, bj0, bs => (0, bj0, bs)
  | bi + 1, bj0, bs =>
    if alo ≤ bi ∧ blo < bj0 ∧ junk (b.getD (bj0 - 1) default) = wantJunk
        ∧ a.getD bi default = b.getD (bj0 - 1) default
    then extLo a b junk alo blo wantJunk bi (bj0 - 1) (bs + 1)
    else (bi + 1, bj0, bs)

/-- One of the two upward extension loops of find_longest_match:
while besti+bestsize < ahi and bestj+bestsize < bhi and junkness of
b[bestj+bestsize] matches wantJunk and a[besti+bestsize] ==
b[bestj+bestsize], grow the match upward.  The loop runs at most
ahi - besti - bestsize times, so fuel ahi always suffices. -/
def extHi {α : Type} [DecidableEq α] [Inhabited α] (a b : List α)
    (junk : α → Bool) (ahi bhi : Nat) (wantJunk : Bool) (bi bj0 : Nat) :
    Nat → Nat → Nat
  | 0, bs => bs
  | f + 1, bs =>
    if bi + bs < ahi ∧ bj0 + bs < bhi ∧ junk (b.getD (bj0 + bs) default) = wantJunk
        ∧ a.getD (bi + bs) default = b.getD (bj0 + bs) default
    then extHi a b junk ahi bhi wantJunk bi bj0 f (bs + 1)
    else bs

/-- SequenceMatcher.find_longest_match on a[alo:ahi] and b[blo:bhi]:
the dynamic-programming sweep followed by the four extension loops
(non-junk downward, non-junk upward, junk downward, junk upward),
exactly in the source's order. -/
def find_longest_match {α : Type} [DecidableEq α] [Inhabited α]
    (junk : α → Bool) (a b : List α) (alo ahi blo bhi : Nat) :
    Nat × Nat × Nat :=
  let bjs := b2j junk b
  let best := flmLoop a bjs blo bhi (List.range' alo (ahi - alo)) (fun _ => 0)
    ⟨alo, blo, 0⟩
  let e1 := extLo a b junk alo blo false best.besti best.bestj best.bestsize
  let s2 := extHi a b junk ahi bhi false e1.1 e1.2.1 ahi e1.2.2
  let e3 := extLo a b junk alo blo true e1.1 e1.2.1 s2
  let s4 := extHi a b junk ahi bhi true e3.1 e3.2.1 ahi e3.2.2
  (e3.1, e3.2.1, s4)

/-- The recursive block collection of get_matching_blocks: find the
longest match, then recurse on the pieces before and after it.  The
result is the sorted list of nonempty matching blocks.  Fuel dominates
the recursion depth (each recursive range is strictly smaller); the
wrapper passes len(a) + len(b) + 1 which always suffices. -/
def matchingBlocksF {α : Type} [DecidableEq α] [Inhabited α]
    (junk : α → Bool) (a b : List α) :
    Nat → Nat → Nat → Nat → Nat → List (Nat × Nat × Nat)
  | 0, _, _, _, _ => []
  | f + 1, alo, ahi, blo, bhi =>
    let r := find_longest_match junk a b alo ahi blo bhi
    if 0 < r.2.2 then
      matchingBlocksF junk a b f alo r.1 blo r.2.1
        ++ (r.1, r.2.1, r.2.2)
          :: matchingBlocksF junk a b f (r.1 + r.2.2) ahi (r.2.1 + r.2.2) bhi
    else []

/-- The adjacent-block merging pass of get_matching_blocks, with the
running group (i1, j1, k1) made explicit (it starts at (0, 0, 0)). -/
def mergeAdj : Nat → Nat → Nat → List (Nat × Nat × Nat) → List (Nat × Nat × Nat)
  | i1, j1, k1, [] => if 0 < k1 then [(i1, j1, k1)] else []
  | i1, j1, k1, (i2, j2, k2) :: rest =>
    if i1 + k1 = i2 ∧ j1 + k1 = j2 then mergeAdj i1 j1 (k1 + k2) rest
    else if 0 < k1 then (i1, j1, k1) :: mergeAdj i2 j2 k2 rest
    else mergeAdj i2 j2 k2 rest

/-- SequenceMatcher.get_matching_blocks: the merged sorted blocks followed
by the (len(a), len(b), 0) sentinel. -/
def get_matching_blocks {α : Type} [DecidableEq α] [Inhabited α]
    (junk : α → Bool) (a b : List α) : List (Nat × Nat × Nat) :=
  mergeAdj 0 0 0
      (matchingBlocksF junk a b (a.length + b.length + 1) 0 a.length 0 b.length)
    ++ [(a.length, b.length, 0)]

/-- The opcode tags of SequenceMatcher.get_opcodes. -/
inductive OpTag where
  | replace
  | delete
  | insert
  | equal
deriving DecidableEq

/-- SequenceMatcher.get_opcodes from the matching blocks: walk a cursor
(i, j) from (0, 0); before each block emit the gap opcode, then the equal
opcode for the block when it is nonempty. -/
def getOpcodesAux : Nat → Nat → List (Nat × Nat × Nat) →
    List (OpTag × Nat × Nat × Nat × Nat)
  | _, _, [] => []
  | i, j, (ai, bj0, size) :: rest =>
    let gap : List (OpTag × Nat × Nat × Nat × Nat) :=
      if i < ai ∧ j < bj0 then [(OpTag.replace, i, ai, j, bj0)]
      else if i < ai then [(OpTag.delete, i, ai, j, bj0)]
      else if j < bj0 then [(OpTag.insert, i, ai, j, bj0)]
      else []
    let eqop : List (OpTag × Nat × Nat × Nat × Nat) :=
      if 0 < size then [(OpTag.equal, ai, ai + size, bj0, bj0 + size)] else []
    gap ++ eqop ++ getOpcodesAux (ai + size) (bj0 + size) rest

/-- SequenceMatcher.get_opcodes. -/
def get_opcodes {α : Type} [DecidableEq α] [Inhabited α]
    (junk : α → Bool) (a b : List α) : List (OpTag × Nat × Nat × Nat × Nat) :=
  getOpcodesAux 0 0 (get_matching_blocks junk a b)

/-- difflib._calculate_ratio: 2*matches/length, and 1.0 when length = 0. -/
def calcRatioVal (m len : Nat) : ℚ :=
  if 0 < len then mkRat (2 * (m : ℤ)) len else 1

/-- SequenceMatcher.ratio: twice the total size of the matching blocks
divided by the total length of the two sequences. -/
def ratioVal {α : Type} [DecidableEq α] [Inhabited α]
    (junk : α → Bool) (a b : List α) : ℚ :=
  calcRatioVal (((get_matching_blocks junk a b).map (fun blk => blk.2.2)).sum)
    (a.length + b.length)

/-- The matches count of SequenceMatcher.quick_ratio: fold over a with an
availability table initialised from the element counts of b. -/
def quickMatches {α : Type} [DecidableEq α] (a b : List α) : Nat :=
  (a.foldl
    (fun (st : (α → ℤ) × Nat) elt =>
      let numb := st.1 elt
      (fun x => if x = elt then numb - 1 else st.1 x,
       if 0 < numb then st.2 + 1 else st.2))
    (fun x => ((b.count x : Nat) : ℤ), 0)).2

/-- SequenceMatcher.quick_ratio. -/
def quickRatioVal {α : Type} [DecidableEq α] (a b : List α) : ℚ :=
  calcRatioVal (quickMatches a b) (a.length + b.length)

/-- SequenceMatcher.real_quick_ratio. -/
def realQuickRatioVal {α : Type} (a b : List α) : ℚ :=
  calcRatioVal (min a.length b.length) (a.length + b.length)

/-! ## Differ

A diff output line "<tag> <text>" is modelled as a pair of its tag and its
text; the added/removed/unchanged/hint tags stand for the source prefixes
"+ ", "- ", "  " and "? ". -/

/-- The four line tags a Differ can emit. -/
inductive DTag where
  | added
  | removed
  | unchanged
  | hint
deriving DecidableEq

/-- One output line of the differ: its tag and its text. -/
abbrev DiffLine := DTag × String

/-- Differ._dump(tag, x, lo, hi): tag every line of x[lo:hi]. -/
def dumpTag (t : DTag) (x : List String) (lo hi : Nat) : List DiffLine :=
  (List.range' lo (hi - lo)).map (fun i => (t, x.getD i ""))

/-- Differ._plain_replace: dump the shorter side first (added lines first
when the b side is strictly shorter), then the other side. -/
def plainReplace (a : List String) (alo ahi : Nat) (b : List String)
    (blo bhi : Nat) : List DiffLine :=
  if bhi - blo < ahi - alo then
    dumpTag DTag.added b blo bhi ++ dumpTag DTag.removed a alo ahi
  else
    dumpTag DTag.removed a alo ahi ++ dumpTag DTag.added b blo bhi

/-- The intraline tag strings of Differ._fancy_replace: fold the
character-level opcodes of the two lines into the atags/btags hint
strings ('^' for replace, '-' for delete, '+' for insert, ' ' for
equal). -/
def intralineTags (aelt belt : List Char) : List Char × List Char :=
  (get_opcodes isCharJunk aelt belt).foldl
    (fun (p : List Char × List Char) op =>
      let la := op.2.2.1 - op.2.1
      let lb := op.2.2.2.2 - op.2.2.2.1
      match op.1 with
      | OpTag.replace => (p.1 ++ List.replicate la '^', p.2 ++ List.replicate lb '^')
      | OpTag.delete => (p.1 ++ List.replicate la '-', p.2)
      | OpTag.insert => (p.1, p.2 ++ List.replicate lb '+')
      | OpTag.equal => (p.1 ++ List.replicate la ' ', p.2 ++ List.replicate lb ' '))
    ([], [])

/-- difflib._keep_original_ws: keep a whitespace character of the line
where the tag string holds a space (zip of line and tags). -/
def keepOriginalWs : List Char → List Char → List Char
  | c :: cs, t :: ts =>
    (if t = ' ' ∧ isPySpace c then c else t) :: keepOriginalWs cs ts
  | _, _ => []

/-- Differ._qformat: the removed line, its hint line when its stripped tag
string is nonempty, the added line, and its hint line likewise. -/
def qformat (aline bline : String) : List DiffLine :=
  let tg := intralineTags aline.data bline.data
  let atags := rstripChars (keepOriginalWs aline.data tg.1)
  let btags := rstripChars (keepOriginalWs bline.data tg.2)
  [(DTag.removed, aline)]
    ++ (if atags ≠ [] then [(DTag.hint, String.mk atags ++ "\n")] else [])
    ++ [(DTag.added, bline)]
    ++ (if btags ≠ [] then [(DTag.hint, String.mk btags ++ "\n")] else [])

/-- The running state of the search loops of Differ._fancy_replace:
the first equal pair (eqi, eqj) seen, the best ratio so far (initially
0.74), and the indices of the best non-equal near match. -/
structure ScanSt where
  eqpair : Option (Nat × Nat)
  bestRat : ℚ
  bestpair : Option (Nat × Nat)
deriving DecidableEq

/-- The double search loop of Differ._fancy_replace over j in [blo, bhi)
and i in [alo, ahi): remember the first identical pair, and the non-equal
pair whose character ratio beats the current best (guarded, as in the
source, by real_quick_ratio and quick_ratio). -/
def fancyScan (a b : List String) (alo ahi blo bhi : Nat) : ScanSt :=
  (List.range' blo (bhi - blo)).foldl
    (fun st j =>
      (List.range' alo (ahi - alo)).foldl
        (fun st i =>
          let ai := a.getD i ""
          let bj0 := b.getD j ""
          if ai = bj0 then
            { st with eqpair := match st.eqpair with
                                | none => some (i, j)
                                | p => p }
          else if st.bestRat < realQuickRatioVal ai.data bj0.data
              ∧ st.bestRat < quickRatioVal ai.data bj0.data
              ∧ st.bestRat < ratioVal isCharJunk ai.data bj0.data then
            { eqpair := st.eqpair,
              bestRat := ratioVal isCharJunk ai.data bj0.data,
              bestpair := some (i, j) }
          else st)
        st)
    ⟨none, mkRat 37 50, none⟩

/-- Differ._fancy_replace (mode = false) and Differ._fancy_helper
(mode = true), with an explicit fuel argument.  _fancy_replace: scan for
the best near-match; below the 0.75 cutoff fall back to the first
identical pair, or to _plain_replace when there is none; then recurse on
the parts before and after the synchronisation pair, emitting either the
intraline _qformat block (near match) or an unchanged line (identical
pair).  The bestpair-none branch under a ratio at or above the cutoff is
unreachable (fancyScan_bestpair below).  _fancy_helper dispatches to
_fancy_replace when both sides are nonempty and dumps the nonempty side
otherwise. -/
def fancyF (a b : List String) : Nat → Bool → Nat → Nat → Nat → Nat → List DiffLine
  | 0, _, _, _, _, _ => []
  | f + 1, true, alo, ahi, blo, bhi =>
    if alo < ahi then
      if blo < bhi then fancyF a b f false alo ahi blo bhi
      else dumpTag DTag.removed a alo ahi
    else if blo < bhi then dumpTag DTag.added b blo bhi
    else []
  | f + 1, false, alo, ahi, blo, bhi =>
    let st := fancyScan a b alo ahi blo bhi
    if st.bestRat < mkRat 3 4 then
      match st.eqpair with
      | none => plainReplace a alo ahi b blo bhi
      | some (ei, ej) =>
        fancyF a b f true alo ei blo ej
          ++ (DTag.unchanged, a.getD ei "")
            :: fancyF a b f true (ei + 1) ahi (ej + 1) bhi
    else
      match st.bestpair with
      | some (bi, bj0) =>
        fancyF a b f true alo bi blo bj0
          ++ qformat (a.getD bi "") (b.getD bj0 "")
          ++ fancyF a b f true (bi + 1) ahi (bj0 + 1) bhi
      | none => []

/-- Dispatch of one line-level opcode in Differ.compare: replace goes to
_fancy_replace (with fuel dominating its recursion depth), delete dumps
removed a-lines, insert dumps added b-lines, equal dumps unchanged
a-lines. -/
def opDispatch (a b : List String) (op : OpTag × ℕ × ℕ × ℕ × ℕ) :
    List DiffLine :=
  match op.1 with
  | OpTag.replace =>
    fancyF a b (2 * ((op.2.2.1 - op.2.1) + (op.2.2.2.2 - op.2.2.2.1)) + 2)
      false op.2.1 op.2.2.1 op.2.2.2.1 op.2.2.2.2
  | OpTag.delete => dumpTag DTag.removed a op.2.1 op.2.2.1
  | OpTag.insert => dumpTag DTag.added b op.2.2.2.1 op.2.2.2.2
  | OpTag.equal => dumpTag DTag.unchanged a op.2.1 op.2.2.1

/-- Differ.compare: line-level opcodes (junk-free SequenceMatcher over the
lines) dispatched to _fancy_replace / _dump. -/
def differCompare (a b : List String) : List DiffLine :=
  (get_opcodes noJunk a b).flatMap (opDispatch a b)

/-- Number of diff lines carrying a given tag (the source's
len([l for l in diff if l.startswith(tag)])). -/
def countTag (t : DTag) (d : List DiffLine) : Nat :=
  (d.filter (fun x => decide (x.1 = t))).length

/-! ## The TXT comparator pipeline -/

/-- The per-page statistics of compare_page_worker ("changed" is the
source's name for the modified count). -/
structure PageStats where
  added : Nat
  removed : Nat
  changed : Nat
  unchanged : Nat
  simWeighted : ℚ
  totalChars : Nat
deriving DecidableEq

/-- compare_page_worker: diff the two page line lists, count the lines by
tag (hint lines integer-divided by two for the modified count), and weight
the character-level similarity of the concatenated page contents by the
total character count, 0 when the page is empty on both sides. -/
def compare_page_worker (devPageLines prodPageLines : List String) :
    List DiffLine × PageStats :=
  let diff := differCompare devPageLines prodPageLines
  let devContent := (String.join devPageLines).data
  let prodContent := (String.join prodPageLines).data
  let pageTotal := devContent.length + prodContent.length
  let sim : ℚ :=
    if 0 < pageTotal then
      qmul (ratioVal noJunk devContent prodContent) (qofNat pageTotal)
    else qofNat 0
  (diff,
   { added := countTag DTag.added diff,
     removed := countTag DTag.removed diff,
     changed := countTag DTag.hint diff / 2,
     unchanged := countTag DTag.unchanged diff,
     simWeighted := sim,
     totalChars := pageTotal })

/-- TXTComparator.load_file_by_pages: divide the lines into pages of
pageLines lines each (the loop for i in range(0, len(all_lines),
page_lines) runs exactly ceil(len/L) times; page i is the slice
[i*L, i*L+L)). -/
def load_file_by_pages (pageLines : Nat) (allLines : List String) :
    List (List String) :=
  (List.range ((allLines.length + pageLines - 1) / pageLines)).map
    (fun i => (allLines.drop (i * pageLines)).take pageLines)

/-- The task list of compare_pages_streaming: one task per index below
max(len(dev_pages), len(prod_pages)), pairing the page of each side and
substituting an empty page for a side with fewer pages. -/
def tasksOf (devPages prodPages : List (List String)) :
    List (List String × List String) :=
  (List.range (max devPages.length prodPages.length)).map
    (fun i => (devPages.getD i [], prodPages.getD i []))

/-- One entry of the page_diffs list (page_num, dev_lines, prod_lines,
diff). -/
structure PageEntry where
  pageNum : Nat
  devLines : List String
  prodLines : List String
  diff : List DiffLine
deriving DecidableEq

/-- The results-dict entry for page i: the worker output on the page
pair, or — when diffing the page failed — the substituted empty result
(all counts zero, zero weighted similarity and weight; the source stores
page_num + 1 in that branch). -/
def pageResult (devPages prodPages : List (List String)) (fails : Nat → Bool)
    (i : Nat) : PageEntry × PageStats :=
  if fails i then (⟨i + 1, [], [], []⟩, ⟨0, 0, 0, 0, qofNat 0, 0⟩)
  else
    let dl := devPages.getD i []
    let pl := prodPages.getD i []
    let w := compare_page_worker dl pl
    (⟨i, dl, pl, w.1⟩, w.2)

/-- The state computed by compare_pages_streaming: the aggregated change
counters, the weighted-similarity numerator (matching_chars), the final
value of the total_chars variable, the precalculated similarity ratio,
the ordered page_diffs list, and the precalculated character and word
counts. -/
structure StreamOut where
  totalAdded : Nat
  totalRemoved : Nat
  totalChanged : Nat
  totalUnchanged : Nat
  matchingChars : ℚ
  totalChars : Nat
  similarityRatioVal : ℚ
  pageDiffs : List PageEntry
  devTotalChars : Nat
  prodTotalChars : Nat
  devWords : Nat
  prodWords : Nat
deriving DecidableEq

/-- TXTComparator.compare_pages_streaming.  order is the completion order
of the parallel workers (as_completed), fails marks the pages whose
future raised.  The counters are summed over all pages in index order;
total_chars, however, does not start from its zero initialisation: the
tuple unpacking inside the as_completed loop rebinds the same variable,
so when the aggregation loop starts it already holds the page total of
the last successfully completed page (the leftover below), and the page
totals are then added on top of it. -/
def compare_pages_streaming (devPages prodPages : List (List String))
    (order : List Nat) (fails : Nat → Bool) : StreamOut :=
  let maxPages := max devPages.length prodPages.length
  let res := fun i => pageResult devPages prodPages fails i
  let leftover : Nat :=
    match (order.filter (fun i => !(fails i))).getLast? with
    | some i => (res i).2.totalChars
    | none => 0
  let entries := (List.range maxPages).map res
  let totalAdded := (entries.map (fun e => e.2.added)).sum
  let totalRemoved := (entries.map (fun e => e.2.removed)).sum
  let totalChanged := (entries.map (fun e => e.2.changed)).sum
  let totalUnchanged := (entries.map (fun e => e.2.unchanged)).sum
  let matchingChars := qsum (entries.map (fun e => e.2.simWeighted))
  let totalChars := leftover + (entries.map (fun e => e.2.totalChars)).sum
  let pageDiffs := entries.map (fun e => e.1)
  let sampled := everyTenth pageDiffs
  let devW0 := (sampled.map (fun p => countWords (String.join p.devLines).data)).sum
  let prodW0 := (sampled.map (fun p => countWords (String.join p.prodLines).data)).sum
  let factor : ℚ := qdivNat (qofNat pageDiffs.length) (max sampled.length 1)
  { totalAdded := totalAdded,
    totalRemoved := totalRemoved,
    totalChanged := totalChanged,
    totalUnchanged := totalUnchanged,
    matchingChars := matchingChars,
    totalChars := totalChars,
    similarityRatioVal :=
      if 0 < totalChars then qdivNat matchingChars totalChars else qofNat 1,
    pageDiffs := pageDiffs,
    devTotalChars :=
      (pageDiffs.map (fun p => (String.join p.devLines).length)).sum,
    prodTotalChars :=
      (pageDiffs.map (fun p => (String.join p.prodLines).length)).sum,
    devWords := (pyInt (qmul (qofNat devW0) factor)).toNat,
    prodWords := (pyInt (qmul (qofNat prodW0) factor)).toNat }

/-- The numeric fields of the analytics dictionary built by
TXTComparator.calculate_analytics (timestamp, filenames and on-disk file
sizes are I/O and are not modelled). -/
structure Analytics where
  similarityRatioVal : ℚ
  similarityPercent : ℤ
  differencePercent : ℤ
  devPageCount : Nat
  prodPageCount : Nat
  maxPageCount : Nat
  devTotalLines : Nat
  prodTotalLines : Nat
  maxTotalLines : Nat
  added : Nat
  removed : Nat
  modified : Nat
  unchanged : Nat
  devChars : Nat
  prodChars : Nat
  charsDiff : Nat
  devWords : Nat
  prodWords : Nat
  wordsDiff : Nat
deriving DecidableEq

/-- TXTComparator.calculate_analytics from the precalculated streaming
state and the two page counts. -/
def calculate_analytics (out : StreamOut) (devPageCount prodPageCount : Nat) :
    Analytics :=
  let devTotalLines := (out.pageDiffs.map (fun p => p.devLines.length)).sum
  let prodTotalLines := (out.pageDiffs.map (fun p => p.prodLines.length)).sum
  { similarityRatioVal := out.similarityRatioVal,
    similarityPercent := pyInt (qmul out.similarityRatioVal (qofNat 100)),
    differencePercent :=
      pyInt (qsub (qofNat 100) (qmul out.similarityRatioVal (qofNat 100))),
    devPageCount := devPageCount,
    prodPageCount := prodPageCount,
    maxPageCount := max devPageCount prodPageCount,
    devTotalLines := devTotalLines,
    prodTotalLines := prodTotalLines,
    maxTotalLines := max devTotalLines prodTotalLines,
    added := out.totalAdded,
    removed := out.totalRemoved,
    modified := out.totalChanged,
    unchanged := out.totalUnchanged,
    devChars := out.devTotalChars,
    prodChars := out.prodTotalChars,
    charsDiff := ((out.devTotalChars : ℤ) - (out.prodTotalChars : ℤ)).natAbs,
    devWords := out.devWords,
    prodWords := out.prodWords,
    wordsDiff := ((out.devWords : ℤ) - (out.prodWords : ℤ)).natAbs }

/-- TXTComparator.compare: load both sides into pages; when both page
lists are empty ("if not dev_pages and not prod_pages") fail fast and
return no analytics; otherwise run the streaming comparison and the
analytics calculation. -/
def compareRun (pageLines : Nat) (devLines prodLines : List String)
    (order : List Nat) (fails : Nat → Bool) : Option Analytics :=
  let devPages := load_file_by_pages pageLines devLines
  let prodPages := load_file_by_pages pageLines prodLines
  if devPages = [] ∧ prodPages = [] then none
  else
    some (calculate_analytics
      (compare_pages_streaming devPages prodPages order fails)
      devPages.length prodPages.length)

/-! ## Spec-side definitions (for comparison with the code) -/

/-- The spec's document similarity formula, over the list of per-unit
(similarity_weighted, weight) pairs: Σ similarity_weighted / Σ weight,
defaulting to 1.0 when the total weight is 0. -/
def specOverallSimilarity (units : List (ℚ × Nat)) : ℚ :=
  let tw := (units.map (fun u => u.2)).sum
  if tw = 0 then 1 else qdivNat (qsum (units.map (fun u => u.1))) tw

/-- The spec's sampled word count over the per-unit texts: sum the word
counts of every tenth unit and scale by units / sampled-units (truncated
to an integer, as int() does). -/
def specSampledWordCount (unitTexts : List (List Char)) : Nat :=
  let sampled := everyTenth unitTexts
  let s := (sampled.map countWords).sum
  (pyInt (qmul (qofNat s)
    (qdivNat (qofNat unitTexts.length) (max sampled.length 1)))).toNat

/-- The exact total word count of a list of unit texts (no sampling). -/
def exactWordCount (unitTexts : List (List Char)) : Nat :=
  (unitTexts.map countWords).sum

/-! ## Verification predicates -/

/-- A well-placed candidate triple (i, j, k) of find_longest_match on the
ranges [alo, ahi) x [blo, bhi): either still the initial empty match at
(alo, blo), or a nonempty match lying inside the ranges. -/
def TripleGood (alo ahi blo bhi : ℕ) (t : ℕ × ℕ × ℕ) : Prop :=
  (t.2.2 = 0 ∧ t.1 = alo ∧ t.2.1 = blo) ∨
  (0 < t.2.2 ∧ alo ≤ t.1 ∧ t.1 + t.2.2 ≤ ahi ∧ blo ≤ t.2.1 ∧ t.2.1 + t.2.2 ≤ bhi)

/-- The invariant of the j2len table when row i is about to be processed:
every recorded run has length at most i - alo, and a nonzero entry at j
lies inside [blo, bhi) with length at most j + 1 - blo. -/
def J2Inv (alo blo bhi i : ℕ) (f : ℕ → ℕ) : Prop :=
  ∀ j, f j ≤ i - alo ∧ (0 < f j → blo ≤ j ∧ j < bhi ∧ f j ≤ j + 1 - blo)

/-- Validity of a block list relative to a cursor (c, d) and the range
ends: blocks occur in order, starting at or after the cursor and ending
within the ranges. -/
def BlocksChain (ahi bhi : ℕ) : ℕ → ℕ → List (ℕ × ℕ × ℕ) → Prop
  | _, _, [] => True
  | c, d, (i, j, k) :: rest =>
    c ≤ i ∧ d ≤ j ∧ i + k ≤ ahi ∧ j + k ≤ bhi ∧
      BlocksChain ahi bhi (i + k) (j + k) rest

/-- The invariant of the search state of Differ._fancy_replace: recorded
pairs lie inside the ranges, and while no near match has been recorded
the best ratio is still the initial 0.74. -/
def ScanInv (alo ahi blo bhi : ℕ) (st : ScanSt) : Prop :=
  (∀ p : ℕ × ℕ, st.eqpair = some p →
    alo ≤ p.1 ∧ p.1 < ahi ∧ blo ≤ p.2 ∧ p.2 < bhi) ∧
  (∀ p : ℕ × ℕ, st.bestpair = some p →
    alo ≤ p.1 ∧ p.1 < ahi ∧ blo ≤ p.2 ∧ p.2 < bhi) ∧
  (st.bestpair = none → st.bestRat = mkRat 37 50)

/-! ## The mkRat-based operations are the standard rational operations -/

theorem mkRat_eq_div (n : ℤ) (d : ℕ) : mkRat n d = (n : ℚ) / (d : ℚ) := by
  rw [Rat.mkRat_eq_divInt, Rat.divInt_eq_div]
  norm_num

theorem qofNat_eq (n : ℕ) : qofNat n = (n : ℚ) := by
  simp [qofNat, mkRat_eq_div]

theorem qadd_eq (a b : ℚ) : qadd a b = a + b := by
  have ha : ((a.den : ℚ)) ≠ 0 := by exact_mod_cast a.den_nz
  have hb : ((b.den : ℚ)) ≠ 0 := by exact_mod_cast b.den_nz
  rw [qadd, mkRat_eq_div]
  conv_rhs => rw [← Rat.num_div_den a, ← Rat.num_div_den b]
  rw [div_add_div _ _ ha hb]
  push_cast
  ring_nf

theorem qsub_eq (a b : ℚ) : qsub a b = a - b := by
  have ha : ((a.den : ℚ)) ≠ 0 := by exact_mod_cast a.den_nz
  have hb : ((b.den : ℚ)) ≠ 0 := by exact_mod_cast b.den_nz
  rw [qsub, mkRat_eq_div]
  conv_rhs => rw [← Rat.num_div_den a, ← Rat.num_div_den b]
  rw [div_sub_div _ _ ha hb]
  push_cast
  ring_nf

theorem qmul_eq (a b : ℚ) : qmul a b = a * b := by
  rw [qmul, mkRat_eq_div]
  conv_rhs => rw [← Rat.num_div_den a, ← Rat.num_div_den b]
  rw [div_mul_div_comm]
  push_cast
  ring_nf

theorem qdivNat_eq (a : ℚ) (n : ℕ) : qdivNat a n = a / (n : ℚ) := by
  rw [qdivNat, mkRat_eq_div]
  conv_rhs => rw [← Rat.num_div_den a]
  rw [div_div]
  push_cast
  ring_nf

theorem qsum_eq (l : List ℚ) : qsum l = l.sum := by
  induction l with
  | nil => simp [qsum, qofNat_eq]
  | cons x xs ih =>
    simp only [qsum, List.foldr_cons, List.sum_cons]
    rw [show List.foldr qadd (qofNat 0) xs = qsum xs from rfl, qadd_eq, ih]

theorem calcRatioVal_eq (m len : Nat) :
    calcRatioVal m len = if 0 < len then 2 * (m : ℚ) / (len : ℚ) else 1 := by
  unfold calcRatioVal
  split
  · rw [mkRat_eq_div]; push_cast; ring_nf
  · rfl

/-! ## find_longest_match returns a block inside its ranges -/

theorem flmRow_good (alo ahi blo bhi i : ℕ) (j2len : ℕ → ℕ)
    (hai : alo ≤ i) (hia : i < ahi)
    (hj2 : J2Inv alo blo bhi i j2len) :
    ∀ (js : List ℕ) (acc : ℕ → ℕ) (best : FlmBest),
      (∀ j ∈ js, blo ≤ j ∧ j < bhi) →
      J2Inv alo blo bhi (i + 1) acc →
      TripleGood alo ahi blo bhi (best.besti, best.bestj, best.bestsize) →
      J2Inv alo blo bhi (i + 1) (flmRow j2len i js acc best).1 ∧
      TripleGood alo ahi blo bhi
        ((flmRow j2len i js acc best).2.besti,
         (flmRow j2len i js acc best).2.bestj,
         (flmRow j2len i js acc best).2.bestsize) := by
  intro js
  induction js with
  | nil =>
    intro acc best _ hacc hbest
    exact ⟨hacc, hbest⟩
  | cons j js ih =>
    intro acc best hjs hacc hbest
    obtain ⟨hjb, hjhi⟩ := hjs j (by simp)
    have hjs2 : ∀ j2 ∈ js, blo ≤ j2 ∧ j2 < bhi := fun j2 h2 => hjs j2 (by simp [h2])
    simp only [flmRow]
    have hprev : (if j = 0 then 0 else j2len (j - 1)) ≤ i - alo := by
      split
      · omega
      · exact (hj2 (j - 1)).1
    have hktop : (if j = 0 then 0 else j2len (j - 1)) + 1 ≤ j + 1 - blo := by
      by_cases hj0 : j = 0
      · simp only [if_pos hj0]
        omega
      · simp only [if_neg hj0]
        rcases Nat.eq_zero_or_pos (j2len (j - 1)) with hz | hpos
        · omega
        · have := (hj2 (j - 1)).2 hpos
          omega
    refine ih _ _ hjs2 ?_ ?_
    · intro j2
      dsimp only
      by_cases hjj : j2 = j
      · rw [if_pos hjj]
        subst hjj
        exact ⟨by omega, fun _ => ⟨hjb, hjhi, by omega⟩⟩
      · rw [if_neg hjj]
        exact hacc j2
    · dsimp only
      by_cases hupd : best.bestsize < (if j = 0 then 0 else j2len (j - 1)) + 1
      · rw [if_pos hupd]
        refine Or.inr ⟨?_, ?_, ?_, ?_, ?_⟩ <;> dsimp only <;> omega
      · rw [if_neg hupd]
        exact hbest

theorem flmLoop_good {α : Type} [DecidableEq α] [Inhabited α] (a : List α)
    (bjs : α → List Nat) (alo ahi blo bhi : ℕ) :
    ∀ (n s : ℕ) (j2len : ℕ → ℕ) (best : FlmBest),
      alo ≤ s → s + n ≤ ahi →
      J2Inv alo blo bhi s j2len →
      TripleGood alo ahi blo bhi (best.besti, best.bestj, best.bestsize) →
      TripleGood alo ahi blo bhi
        (((flmLoop a bjs blo bhi (List.range' s n) j2len best)).besti,
         ((flmLoop a bjs blo bhi (List.range' s n) j2len best)).bestj,
         ((flmLoop a bjs blo bhi (List.range' s n) j2len best)).bestsize) := by
  intro n
  induction n with
  | zero =>
    intro s j2len best _ _ _ hbest
    exact hbest
  | succ n ih =>
    intro s j2len best hs hsn hj2 hbest
    rw [List.range'_succ]
    simp only [flmLoop]
    have hrow := flmRow_good alo ahi blo bhi s j2len hs (by omega) hj2
      ((bjs (a.getD s default)).filter (fun j => decide (blo ≤ j ∧ j < bhi)))
      (fun _ => 0) best
      (by
        intro j hj
        have := List.of_mem_filter hj
        simpa using this)
      (by intro j; exact ⟨by simp, by simp⟩)
      hbest
    exact ih (s + 1) _ _ (by omega) (by omega) hrow.1 hrow.2

theorem extLo_good {α : Type} [DecidableEq α] [Inhabited α] (a b : List α)
    (junk : α → Bool) (alo ahi blo bhi : ℕ) (wantJunk : Bool) :
    ∀ (bi bj0 bs : ℕ),
      TripleGood alo ahi blo bhi (bi, bj0, bs) →
      TripleGood alo ahi blo bhi (extLo a b junk alo blo wantJunk bi bj0 bs) := by
  intro bi
  induction bi with
  | zero =>
    intro bj0 bs h
    exact h
  | succ bi ih =>
    intro bj0 bs h
    simp only [extLo]
    split
    next hguard =>
      rcases h with ⟨h1, h2, h3⟩ | ⟨h1, h2, h3, h4, h5⟩
      · dsimp only at h1 h2 h3
        omega
      · dsimp only at h1 h2 h3 h4 h5
        refine ih _ _ (Or.inr ⟨?_, ?_, ?_, ?_, ?_⟩) <;> dsimp only <;> omega
    next hguard => exact h

theorem extHi_good {α : Type} [DecidableEq α] [Inhabited α] (a b : List α)
    (junk : α → Bool) (alo ahi blo bhi : ℕ) (wantJunk : Bool) (bi bj0 : ℕ) :
    ∀ (f bs : ℕ),
      TripleGood alo ahi blo bhi (bi, bj0, bs) →
      TripleGood alo ahi blo bhi
        (bi, bj0, extHi a b junk ahi bhi wantJunk bi bj0 f bs) := by
  intro f
  induction f with
  | zero =>
    intro bs h
    exact h
  | succ f ih =>
    intro bs h
    simp only [extHi]
    split
    next hguard =>
      rcases h with ⟨h1, h2, h3⟩ | ⟨h1, h2, h3, h4, h5⟩
      · dsimp only at h1 h2 h3
        refine ih _ (Or.inr ⟨?_, ?_, ?_, ?_, ?_⟩) <;> dsimp only <;> omega
      · dsimp only at h1 h2 h3 h4 h5
        refine ih _ (Or.inr ⟨?_, ?_, ?_, ?_, ?_⟩) <;> dsimp only <;> omega
    next hguard => exact h

theorem flm_good {α : Type} [DecidableEq α] [Inhabited α] (junk : α → Bool)
    (a b : List α) (alo ahi blo bhi : ℕ) :
    TripleGood alo ahi blo bhi (find_longest_match junk a b alo ahi blo bhi) := by
  unfold find_longest_match
  have hloop : TripleGood alo ahi blo bhi
      (((flmLoop a (b2j junk b) blo bhi (List.range' alo (ahi - alo)) (fun _ => 0)
          ⟨alo, blo, 0⟩)).besti,
       ((flmLoop a (b2j junk b) blo bhi (List.range' alo (ahi - alo)) (fun _ => 0)
          ⟨alo, blo, 0⟩)).bestj,
       ((flmLoop a (b2j junk b) blo bhi (List.range' alo (ahi - alo)) (fun _ => 0)
          ⟨alo, blo, 0⟩)).bestsize) := by
    rcases Nat.le_total alo ahi with hle | hlt
    · exact flmLoop_good a (b2j junk b) alo ahi blo bhi (ahi - alo) alo
        (fun _ => 0) ⟨alo, blo, 0⟩ (le_refl _) (by omega)
        (fun j => ⟨by simp, by simp⟩) (Or.inl ⟨rfl, rfl, rfl⟩)
    · have : ahi - alo = 0 := by omega
      rw [this]
      exact Or.inl ⟨rfl, rfl, rfl⟩
  have he1 := extLo_good a b junk alo ahi blo bhi false _ _ _ hloop
  have hs2 := extHi_good a b junk alo ahi blo bhi false _ _ ahi _ he1
  have he3 := extLo_good a b junk alo ahi blo bhi true _ _ _ hs2
  have hs4 := extHi_good a b junk alo ahi blo bhi true _ _ ahi _ he3
  exact hs4

theorem flm_pos {α : Type} [DecidableEq α] [Inhabited α] (junk : α → Bool)
    (a b : List α) (alo ahi blo bhi : ℕ)
    (h : 0 < (find_longest_match junk a b alo ahi blo bhi).2.2) :
    alo ≤ (find_longest_match junk a b alo ahi blo bhi).1 ∧
    (find_longest_match junk a b alo ahi blo bhi).1 +
      (find_longest_match junk a b alo ahi blo bhi).2.2 ≤ ahi ∧
    blo ≤ (find_longest_match junk a b alo ahi blo bhi).2.1 ∧
    (find_longest_match junk a b alo ahi blo bhi).2.1 +
      (find_longest_match junk a b alo ahi blo bhi).2.2 ≤ bhi := by
  rcases flm_good junk a b alo ahi blo bhi with ⟨h1, _, _⟩ | ⟨_, h2, h3, h4, h5⟩
  · omega
  · exact ⟨h2, h3, h4, h5⟩

/-! ## The matching blocks form an ordered chain inside the sequences -/

theorem chain_cons (ahi bhi c d i j k : ℕ) (rest : List (ℕ × ℕ × ℕ)) :
    BlocksChain ahi bhi c d ((i, j, k) :: rest) ↔
      (c ≤ i ∧ d ≤ j ∧ i + k ≤ ahi ∧ j + k ≤ bhi ∧
        BlocksChain ahi bhi (i + k) (j + k) rest) := by
  rfl

theorem chain_append (ahi bhi i j : ℕ) (rest : List (ℕ × ℕ × ℕ))
    (hi : i ≤ ahi) (hj : j ≤ bhi)
    (hrest : BlocksChain ahi bhi i j rest) :
    ∀ (front : List (ℕ × ℕ × ℕ)) (c d : ℕ), c ≤ i → d ≤ j →
      BlocksChain i j c d front → BlocksChain ahi bhi c d (front ++ rest) := by
  intro front
  induction front with
  | nil =>
    intro c d hc hd _
    rcases rest with _ | ⟨⟨x, y, z⟩, r⟩
    · trivial
    · rcases hrest with ⟨g1, g2, g3, g4, g5⟩
      exact (chain_cons _ _ _ _ _ _ _ _).mpr ⟨by omega, by omega, g3, g4, g5⟩
  | cons blk fr ih =>
    obtain ⟨x, y, z⟩ := blk
    intro c d hc hd hfront
    rcases (chain_cons _ _ _ _ _ _ _ _).mp hfront with ⟨g1, g2, g3, g4, g5⟩
    exact (chain_cons _ _ _ _ _ _ _ _).mpr
      ⟨g1, g2, by omega, by omega, ih _ _ (by omega) (by omega) g5⟩

theorem mb_chain {α : Type} [DecidableEq α] [Inhabited α] (junk : α → Bool)
    (a b : List α) :
    ∀ (f alo ahi blo bhi : ℕ),
      BlocksChain ahi bhi alo blo (matchingBlocksF junk a b f alo ahi blo bhi) := by
  intro f
  induction f with
  | zero => intro alo ahi blo bhi; trivial
  | succ f ih =>
    intro alo ahi blo bhi
    simp only [matchingBlocksF]
    split
    next hk =>
      have hb := flm_pos junk a b alo ahi blo bhi hk
      exact chain_append ahi bhi
        (find_longest_match junk a b alo ahi blo bhi).1
        (find_longest_match junk a b alo ahi blo bhi).2.1 _
        (by omega) (by omega)
        ((chain_cons _ _ _ _ _ _ _ _).mpr
          ⟨le_refl _, le_refl _, by omega, by omega, ih _ _ _ _⟩)
        _ _ _ hb.1 hb.2.2.1 (ih _ _ _ _)
    next hk => trivial

theorem merge_chain (ahi bhi : ℕ) :
    ∀ (l : List (ℕ × ℕ × ℕ)) (i1 j1 k1 c d : ℕ),
      c ≤ i1 → d ≤ j1 → i1 + k1 ≤ ahi → j1 + k1 ≤ bhi →
      BlocksChain ahi bhi (i1 + k1) (j1 + k1) l →
      BlocksChain ahi bhi c d (mergeAdj i1 j1 k1 l) := by
  intro l
  induction l with
  | nil =>
    intro i1 j1 k1 c d hc hd h3 h4 _
    simp only [mergeAdj]
    split
    · exact (chain_cons _ _ _ _ _ _ _ _).mpr ⟨hc, hd, h3, h4, trivial⟩
    · trivial
  | cons blk rest ih =>
    obtain ⟨i2, j2, k2⟩ := blk
    intro i1 j1 k1 c d hc hd h3 h4 hch
    rcases (chain_cons _ _ _ _ _ _ _ _).mp hch with ⟨g1, g2, g3, g4, g5⟩
    simp only [mergeAdj]
    split
    next hadj =>
      refine ih i1 j1 (k1 + k2) c d hc hd (by omega) (by omega) ?_
      have e1 : i1 + (k1 + k2) = i2 + k2 := by omega
      have e2 : j1 + (k1 + k2) = j2 + k2 := by omega
      rw [e1, e2]
      exact g5
    next hadj =>
      split
      next hk1 =>
        exact (chain_cons _ _ _ _ _ _ _ _).mpr
          ⟨hc, hd, h3, h4, ih i2 j2 k2 _ _ g1 g2 g3 g4 g5⟩
      next hk1 =>
        exact ih i2 j2 k2 c d (by omega) (by omega) g3 g4 g5

theorem blocks_chain {α : Type} [DecidableEq α] [Inhabited α] (junk : α → Bool)
    (a b : List α) :
    BlocksChain a.length b.length 0 0
      (mergeAdj 0 0 0
        (matchingBlocksF junk a b (a.length + b.length + 1) 0 a.length 0
          b.length)) := by
  refine merge_chain _ _ _ 0 0 0 0 0 (le_refl _) (le_refl _) (by omega)
    (by omega) ?_
  exact mb_chain junk a b _ 0 a.length 0 b.length

/-! ## Counting diff lines -/

theorem countTag_append (t : DTag) (l1 l2 : List DiffLine) :
    countTag t (l1 ++ l2) = countTag t l1 + countTag t l2 := by
  simp [countTag, List.filter_append]

theorem countTag_cons (t t2 : DTag) (s : String) (l : List DiffLine) :
    countTag t ((t2, s) :: l) = (if t2 = t then 1 else 0) + countTag t l := by
  by_cases h : t2 = t
  · simp [countTag, List.filter_cons, h]
    omega
  · simp [countTag, List.filter_cons, h]

theorem countTag_nil (t : DTag) : countTag t [] = 0 := rfl

theorem countTag_dump (t t2 : DTag) (x : List String) (lo hi : ℕ) :
    countTag t (dumpTag t2 x lo hi) = if t2 = t then hi - lo else 0 := by
  unfold countTag dumpTag
  rw [List.filter_map]
  by_cases h : t2 = t
  · subst h
    simp [Function.comp_def]
  · simp [Function.comp_def, h]

theorem countTag_single (t t2 : DTag) (s : String) :
    countTag t [(t2, s)] = if t2 = t then 1 else 0 := by
  rw [countTag_cons, countTag_nil]
  simp

theorem plainReplace_counts (a : List String) (alo ahi : ℕ) (b : List String)
    (blo bhi : ℕ) :
    countTag DTag.removed (plainReplace a alo ahi b blo bhi) = ahi - alo ∧
    countTag DTag.added (plainReplace a alo ahi b blo bhi) = bhi - blo ∧
    countTag DTag.unchanged (plainReplace a alo ahi b blo bhi) = 0 ∧
    countTag DTag.hint (plainReplace a alo ahi b blo bhi) = 0 := by
  unfold plainReplace
  split <;> simp [countTag_append, countTag_dump]

theorem qformat_counts (a b : String) :
    countTag DTag.removed (qformat a b) = 1 ∧
    countTag DTag.added (qformat a b) = 1 ∧
    countTag DTag.unchanged (qformat a b) = 0 ∧
    countTag DTag.hint (qformat a b) ≤ 2 := by
  simp only [qformat]
  split <;> split <;>
    simp [countTag_append, countTag_single, countTag_cons, countTag_nil]

theorem foldl_invariant {β σ : Type _} (P : σ → Prop) (f : σ → β → σ) :
    ∀ (l : List β) (init : σ), P init →
      (∀ st x, x ∈ l → P st → P (f st x)) → P (l.foldl f init) := by
  intro l
  induction l with
  | nil => intro init h0 _; exact h0
  | cons x xs ih =>
    intro init h0 hstep
    exact ih _ (hstep init x (by simp) h0)
      (fun st y hy hP => hstep st y (by simp [hy]) hP)

theorem fancyScan_inv (a b : List String) (alo ahi blo bhi : ℕ) :
    ScanInv alo ahi blo bhi (fancyScan a b alo ahi blo bhi) := by
  unfold fancyScan
  refine foldl_invariant _ _ _ _ ?_ ?_
  · exact ⟨by simp, by simp, fun _ => rfl⟩
  · intro st j hj hst
    have hjr : blo ≤ j ∧ j < bhi := by
      have := List.mem_range'.mp hj
      omega
    refine foldl_invariant _ _ _ _ hst ?_
    intro st2 i hi hst2
    have hir : alo ≤ i ∧ i < ahi := by
      have := List.mem_range'.mp hi
      omega
    dsimp only
    split
    next heq =>
      refine ⟨?_, hst2.2.1, hst2.2.2⟩
      intro p hp
      cases hep : st2.eqpair with
      | none =>
        rw [hep] at hp
        simp only at hp
        cases hp
        exact ⟨hir.1, hir.2, hjr.1, hjr.2⟩
      | some q =>
        rw [hep] at hp
        simp only at hp
        rw [hp] at hep
        exact hst2.1 p hep
    next hne =>
      split
      next hcond =>
        refine ⟨hst2.1, ?_, by intro h; simp at h⟩
        intro p hp
        simp only at hp
        cases hp
        exact ⟨hir.1, hir.2, hjr.1, hjr.2⟩
      next hcond => exact hst2

theorem fancyScan_eqpair (a b : List String) (alo ahi blo bhi i j : ℕ)
    (h : (fancyScan a b alo ahi blo bhi).eqpair = some (i, j)) :
    alo ≤ i ∧ i < ahi ∧ blo ≤ j ∧ j < bhi :=
  (fancyScan_inv a b alo ahi blo bhi).1 (i, j) h

theorem fancyScan_bestpair (a b : List String) (alo ahi blo bhi i j : ℕ)
    (h : (fancyScan a b alo ahi blo bhi).bestpair = some (i, j)) :
    alo ≤ i ∧ i < ahi ∧ blo ≤ j ∧ j < bhi :=
  (fancyScan_inv a b alo ahi blo bhi).2.1 (i, j) h

theorem fancyScan_none (a b : List String) (alo ahi blo bhi : ℕ)
    (h : (fancyScan a b alo ahi blo bhi).bestpair = none) :
    (fancyScan a b alo ahi blo bhi).bestRat = mkRat 37 50 :=
  (fancyScan_inv a b alo ahi blo bhi).2.2 h

/-- The per-call conservation facts of _fancy_replace (mode false) and
_fancy_helper (mode true), for every fuel that dominates the recursion
depth: removed + unchanged lines equal the a-range length, added +
unchanged lines equal the b-range length, and hint lines are at most
twice the added and twice the removed lines (each _qformat block emits
at most two hint lines beside exactly one removed and one added line). -/
theorem fancy_counts (a b : List String) :
    ∀ f : ℕ,
      (∀ alo ahi blo bhi : ℕ,
        2 * ((ahi - alo) + (bhi - blo)) + 1 ≤ f →
          countTag DTag.removed (fancyF a b f true alo ahi blo bhi) +
              countTag DTag.unchanged (fancyF a b f true alo ahi blo bhi)
            = ahi - alo ∧
          countTag DTag.added (fancyF a b f true alo ahi blo bhi) +
              countTag DTag.unchanged (fancyF a b f true alo ahi blo bhi)
            = bhi - blo ∧
          countTag DTag.hint (fancyF a b f true alo ahi blo bhi) ≤
            2 * countTag DTag.added (fancyF a b f true alo ahi blo bhi) ∧
          countTag DTag.hint (fancyF a b f true alo ahi blo bhi) ≤
            2 * countTag DTag.removed (fancyF a b f true alo ahi blo bhi)) ∧
      (∀ alo ahi blo bhi : ℕ, alo < ahi → blo < bhi →
        2 * ((ahi - alo) + (bhi - blo)) ≤ f →
          countTag DTag.removed (fancyF a b f false alo ahi blo bhi) +
              countTag DTag.unchanged (fancyF a b f false alo ahi blo bhi)
            = ahi - alo ∧
          countTag DTag.added (fancyF a b f false alo ahi blo bhi) +
              countTag DTag.unchanged (fancyF a b f false alo ahi blo bhi)
            = bhi - blo ∧
          countTag DTag.hint (fancyF a b f false alo ahi blo bhi) ≤
            2 * countTag DTag.added (fancyF a b f false alo ahi blo bhi) ∧
          countTag DTag.hint (fancyF a b f false alo ahi blo bhi) ≤
            2 * countTag DTag.removed (fancyF a b f false alo ahi blo bhi)) := by
  intro f
  induction f with
  | zero =>
    constructor
    · intro alo ahi blo bhi hfuel
      omega
    · intro alo ahi blo bhi ha hb hfuel
      omega
  | succ f ih =>
    obtain ⟨ihH, ihR⟩ := ih
    constructor
    · intro alo ahi blo bhi hfuel
      simp only [fancyF]
      split
      next h1 =>
        split
        next h2 => exact ihR alo ahi blo bhi h1 h2 (by omega)
        next h2 =>
          simp [countTag_dump]
          omega
      next h1 =>
        split
        next h2 =>
          simp [countTag_dump]
          omega
        next h2 =>
          simp [countTag_nil]
          omega
    · intro alo ahi blo bhi ha hb hfuel
      simp only [fancyF]
      split
      next hlt =>
        cases hep : (fancyScan a b alo ahi blo bhi).eqpair with
        | none =>
          simp only [hep]
          have hp := plainReplace_counts a alo ahi b blo bhi
          omega
        | some p =>
          obtain ⟨ei, ej⟩ := p
          have hr := fancyScan_eqpair a b alo ahi blo bhi ei ej hep
          simp only [hep]
          have hfr := ihH alo ei blo ej (by omega)
          have hbk := ihH (ei + 1) ahi (ej + 1) bhi (by omega)
          simp only [countTag_append, countTag_cons, reduceCtorEq, if_false,
            if_true, if_pos rfl, if_neg (by decide : ¬DTag.unchanged = DTag.removed)]
          omega
      next hge =>
        cases hbp : (fancyScan a b alo ahi blo bhi).bestpair with
        | none =>
          exfalso
          have := fancyScan_none a b alo ahi blo bhi hbp
          rw [this] at hge
          exact hge (by decide)
        | some p =>
          obtain ⟨bi, bj0⟩ := p
          have hr := fancyScan_bestpair a b alo ahi blo bhi bi bj0 hbp
          simp only [hbp]
          have hfr := ihH alo bi blo bj0 (by omega)
          have hbk := ihH (bi + 1) ahi (bj0 + 1) bhi (by omega)
          have hq := qformat_counts (a.getD bi "") (b.getD bj0 "")
          simp only [countTag_append]
          omega

theorem gap_counts (a b : List String) (c d i2 j2 : ℕ)
    (hci : c ≤ i2) (hdj : d ≤ j2) :
    countTag DTag.removed
        ((if c < i2 ∧ d < j2 then [(OpTag.replace, c, i2, d, j2)]
          else if c < i2 then [(OpTag.delete, c, i2, d, j2)]
          else if d < j2 then [(OpTag.insert, c, i2, d, j2)]
          else []).flatMap (opDispatch a b)) +
      countTag DTag.unchanged
        ((if c < i2 ∧ d < j2 then [(OpTag.replace, c, i2, d, j2)]
          else if c < i2 then [(OpTag.delete, c, i2, d, j2)]
          else if d < j2 then [(OpTag.insert, c, i2, d, j2)]
          else []).flatMap (opDispatch a b)) = i2 - c ∧
    countTag DTag.added
        ((if c < i2 ∧ d < j2 then [(OpTag.replace, c, i2, d, j2)]
          else if c < i2 then [(OpTag.delete, c, i2, d, j2)]
          else if d < j2 then [(OpTag.insert, c, i2, d, j2)]
          else []).flatMap (opDispatch a b)) +
      countTag DTag.unchanged
        ((if c < i2 ∧ d < j2 then [(OpTag.replace, c, i2, d, j2)]
          else if c < i2 then [(OpTag.delete, c, i2, d, j2)]
          else if d < j2 then [(OpTag.insert, c, i2, d, j2)]
          else []).flatMap (opDispatch a b)) = j2 - d ∧
    countTag DTag.hint
        ((if c < i2 ∧ d < j2 then [(OpTag.replace, c, i2, d, j2)]
          else if c < i2 then [(OpTag.delete, c, i2, d, j2)]
          else if d < j2 then [(OpTag.insert, c, i2, d, j2)]
          else []).flatMap (opDispatch a b)) ≤
      2 * countTag DTag.added
        ((if c < i2 ∧ d < j2 then [(OpTag.replace, c, i2, d, j2)]
          else if c < i2 then [(OpTag.delete, c, i2, d, j2)]
          else if d < j2 then [(OpTag.insert, c, i2, d, j2)]
          else []).flatMap (opDispatch a b)) ∧
    countTag DTag.hint
        ((if c < i2 ∧ d < j2 then [(OpTag.replace, c, i2, d, j2)]
          else if c < i2 then [(OpTag.delete, c, i2, d, j2)]
          else if d < j2 then [(OpTag.insert, c, i2, d, j2)]
          else []).flatMap (opDispatch a b)) ≤
      2 * countTag DTag.removed
        ((if c < i2 ∧ d < j2 then [(OpTag.replace, c, i2, d, j2)]
          else if c < i2 then [(OpTag.delete, c, i2, d, j2)]
          else if d < j2 then [(OpTag.insert, c, i2, d, j2)]
          else []).flatMap (opDispatch a b)) := by
  split_ifs with h1 h2 h3
  · simp only [List.flatMap_cons, List.flatMap_nil, List.append_nil]
    have := (fancy_counts a b (2 * ((i2 - c) + (j2 - d)) + 2)).2 c i2 d j2
      h1.1 h1.2 (by omega)
    simpa [opDispatch] using this
  · simp only [List.flatMap_cons, List.flatMap_nil, List.append_nil]
    simp [opDispatch, countTag_dump]
    omega
  · simp only [List.flatMap_cons, List.flatMap_nil, List.append_nil]
    simp [opDispatch, countTag_dump]
    omega
  · simp [countTag_nil]
    omega

theorem opcodes_walk_counts (a b : List String) :
    ∀ (blocks : List (ℕ × ℕ × ℕ)) (c d : ℕ),
      BlocksChain a.length b.length c d blocks →
      c ≤ a.length → d ≤ b.length →
      countTag DTag.removed
          ((getOpcodesAux c d (blocks ++ [(a.length, b.length, 0)])).flatMap
            (opDispatch a b)) +
        countTag DTag.unchanged
          ((getOpcodesAux c d (blocks ++ [(a.length, b.length, 0)])).flatMap
            (opDispatch a b)) = a.length - c ∧
      countTag DTag.added
          ((getOpcodesAux c d (blocks ++ [(a.length, b.length, 0)])).flatMap
            (opDispatch a b)) +
        countTag DTag.unchanged
          ((getOpcodesAux c d (blocks ++ [(a.length, b.length, 0)])).flatMap
            (opDispatch a b)) = b.length - d ∧
      countTag DTag.hint
          ((getOpcodesAux c d (blocks ++ [(a.length, b.length, 0)])).flatMap
            (opDispatch a b)) ≤
        2 * countTag DTag.added
          ((getOpcodesAux c d (blocks ++ [(a.length, b.length, 0)])).flatMap
            (opDispatch a b)) ∧
      countTag DTag.hint
          ((getOpcodesAux c d (blocks ++ [(a.length, b.length, 0)])).flatMap
            (opDispatch a b)) ≤
        2 * countTag DTag.removed
          ((getOpcodesAux c d (blocks ++ [(a.length, b.length, 0)])).flatMap
            (opDispatch a b)) := by
  intro blocks
  induction blocks with
  | nil =>
    intro c d _ hc hd
    simp only [List.nil_append, getOpcodesAux]
    have hg := gap_counts a b c d a.length b.length hc hd
    simp only [Nat.lt_irrefl, if_false, and_false, List.append_nil] at *
    simpa [List.flatMap_append, countTag_append] using hg
  | cons blk rest ih =>
    obtain ⟨bi, bj0, k⟩ := blk
    intro c d hch hc hd
    rcases (chain_cons _ _ _ _ _ _ _ _).mp hch with ⟨g1, g2, g3, g4, g5⟩
    simp only [List.cons_append, getOpcodesAux]
    have hg := gap_counts a b c d bi bj0 g1 g2
    have hrec := ih (bi + k) (bj0 + k) g5 (by omega) (by omega)
    simp only [List.flatMap_append, countTag_append]
    rcases Nat.eq_zero_or_pos k with hk | hk
    · subst hk
      simp only [Nat.lt_irrefl, if_false, List.flatMap_nil, countTag_nil]
      simp only [List.append_eq, Nat.add_zero] at hrec ⊢
      omega
    · simp only [if_pos hk, List.flatMap_cons, List.flatMap_nil,
        List.append_nil]
      have hu : countTag DTag.removed (opDispatch a b
            (OpTag.equal, bi, bi + k, bj0, bj0 + k)) = 0 ∧
          countTag DTag.added (opDispatch a b
            (OpTag.equal, bi, bi + k, bj0, bj0 + k)) = 0 ∧
          countTag DTag.unchanged (opDispatch a b
            (OpTag.equal, bi, bi + k, bj0, bj0 + k)) = k ∧
          countTag DTag.hint (opDispatch a b
            (OpTag.equal, bi, bi + k, bj0, bj0 + k)) = 0 := by
        simp [opDispatch, countTag_dump]
      simp only [List.append_eq] at hrec ⊢
      omega

theorem differ_counts (a b : List String) :
    countTag DTag.removed (differCompare a b) +
        countTag DTag.unchanged (differCompare a b) = a.length ∧
    countTag DTag.added (differCompare a b) +
        countTag DTag.unchanged (differCompare a b) = b.length ∧
    countTag DTag.hint (differCompare a b) ≤
      2 * countTag DTag.added (differCompare a b) ∧
    countTag DTag.hint (differCompare a b) ≤
      2 * countTag DTag.removed (differCompare a b) := by
  have h := opcodes_walk_counts a b
    (mergeAdj 0 0 0
      (matchingBlocksF noJunk a b (a.length + b.length + 1) 0 a.length 0
        b.length))
    0 0 (blocks_chain noJunk a b) (Nat.zero_le _) (Nat.zero_le _)
  unfold differCompare get_opcodes get_matching_blocks
  simpa using h

/-! ## Segmentation lemmas -/

theorem ceil_div_mul_ge (x L : ℕ) (hL : 0 < L) : x ≤ ((x + L - 1) / L) * L := by
  rcases Nat.eq_zero_or_pos x with rfl | hx
  · simp
  · have hq : (x + L - 1) / L = (x - 1) / L + 1 := by
      have hE : x + L - 1 = (x - 1) + L := by omega
      rw [hE, Nat.add_div_right _ hL]
    have h1 : L * ((x - 1) / L) + (x - 1) % L = x - 1 := Nat.div_add_mod _ _
    have h2 : (x - 1) % L < L := Nat.mod_lt _ hL
    rw [hq, Nat.succ_mul, Nat.mul_comm]
    omega

theorem load_file_by_pages_length (L : ℕ) (lines : List String) :
    (load_file_by_pages L lines).length = (lines.length + L - 1) / L := by
  simp [load_file_by_pages]

theorem load_file_by_pages_getD (L : ℕ) (hL : 0 < L) (lines : List String)
    (i : ℕ) :
    (load_file_by_pages L lines).getD i [] = (lines.drop (i * L)).take L := by
  by_cases hi : i < (lines.length + L - 1) / L
  · have hi2 : i < (load_file_by_pages L lines).length := by
      rwa [load_file_by_pages_length]
    rw [List.getD_eq_getElem _ _ hi2]
    simp [load_file_by_pages]
  · have hlen : lines.length ≤ i * L := by
      calc lines.length ≤ ((lines.length + L - 1) / L) * L :=
            ceil_div_mul_ge _ _ hL
        _ ≤ i * L := Nat.mul_le_mul_right _ (by omega)
    have hi2 : (load_file_by_pages L lines).length ≤ i := by
      rw [load_file_by_pages_length]; omega
    rw [List.getD_eq_default _ _ (by omega)]
    rw [List.drop_eq_nil_of_le hlen]
    simp

theorem join_slices (L : ℕ) (lines : List String) (K : ℕ) :
    ((List.range K).map (fun i => (lines.drop (i * L)).take L)).flatten
      = lines.take (K * L) := by
  induction K with
  | zero => simp
  | succ n ih =>
    rw [List.range_succ, List.map_append, List.flatten_append, ih]
    simp [Nat.succ_mul, List.take_add]

theorem max_ceil_div (n m L : ℕ) :
    max ((n + L - 1) / L) ((m + L - 1) / L) = (max n m + L - 1) / L := by
  rcases Nat.le_total n m with h | h
  · rw [Nat.max_eq_right h, Nat.max_eq_right (Nat.div_le_div_right (by omega))]
  · rw [Nat.max_eq_left h, Nat.max_eq_left (Nat.div_le_div_right (by omega))]

theorem tasksOf_length (dp pp : List (List String)) :
    (tasksOf dp pp).length = max dp.length pp.length := by
  simp [tasksOf]

theorem tasksOf_getD (dp pp : List (List String)) (i : ℕ)
    (hi : i < max dp.length pp.length) :
    (tasksOf dp pp).getD i ([], []) = (dp.getD i [], pp.getD i []) := by
  have hi2 : i < (tasksOf dp pp).length := by rwa [tasksOf_length]
  rw [List.getD_eq_getElem _ _ hi2]
  simp [tasksOf]

theorem tasksOf_map_fst (dp pp : List (List String)) :
    (tasksOf dp pp).map (fun t => t.1)
      = (List.range (max dp.length pp.length)).map (fun i => dp.getD i []) := by
  simp [tasksOf, List.map_map]

theorem tasksOf_map_snd (dp pp : List (List String)) :
    (tasksOf dp pp).map (fun t => t.2)
      = (List.range (max dp.length pp.length)).map (fun i => pp.getD i []) := by
  simp [tasksOf, List.map_map]

theorem segment_flatten (L : ℕ) (hL : 0 < L) (lines : List String) (K : ℕ)
    (hK : (lines.length + L - 1) / L ≤ K) :
    ((List.range K).map (fun i => (load_file_by_pages L lines).getD i [])).flatten
      = lines := by
  simp only [load_file_by_pages_getD L hL lines]
  rw [join_slices]
  refine List.take_of_length_le ?_
  calc lines.length ≤ ((lines.length + L - 1) / L) * L := ceil_div_mul_ge _ _ hL
    _ ≤ K * L := Nat.mul_le_mul_right _ hK

/-! ## Worker and streaming corollaries -/

theorem worker_stats (devLines prodLines : List String) :
    (compare_page_worker devLines prodLines).2.added
        = countTag DTag.added (compare_page_worker devLines prodLines).1 ∧
    (compare_page_worker devLines prodLines).2.removed
        = countTag DTag.removed (compare_page_worker devLines prodLines).1 ∧
    (compare_page_worker devLines prodLines).2.changed
        = countTag DTag.hint (compare_page_worker devLines prodLines).1 / 2 ∧
    (compare_page_worker devLines prodLines).2.unchanged
        = countTag DTag.unchanged (compare_page_worker devLines prodLines).1 ∧
    (compare_page_worker devLines prodLines).1
        = differCompare devLines prodLines :=
  ⟨rfl, rfl, rfl, rfl, rfl⟩

theorem worker_counts (devLines prodLines : List String) :
    (compare_page_worker devLines prodLines).2.removed +
        (compare_page_worker devLines prodLines).2.unchanged
      = devLines.length ∧
    (compare_page_worker devLines prodLines).2.added +
        (compare_page_worker devLines prodLines).2.unchanged
      = prodLines.length := by
  have h := differ_counts devLines prodLines
  exact ⟨h.1, h.2.1⟩

theorem sum_map_add {α : Type} (l : List α) (f g : α → ℕ) :
    (l.map f).sum + (l.map g).sum = (l.map (fun x => f x + g x)).sum := by
  induction l with
  | nil => simp
  | cons x xs ih =>
    simp only [List.map_cons, List.sum_cons]
    omega

theorem sum_getD_length (L : ℕ) (hL : 0 < L) (lines : List String) (K : ℕ)
    (hK : (lines.length + L - 1) / L ≤ K) :
    ((List.range K).map
      (fun i => ((load_file_by_pages L lines).getD i []).length)).sum
      = lines.length := by
  have hflat := segment_flatten L hL lines K hK
  have hlen := congrArg List.length hflat
  rw [List.length_flatten, List.map_map] at hlen
  exact hlen

theorem pageResult_noFail (dp pp : List (List String)) (i : ℕ) :
    pageResult dp pp (fun _ => false) i
      = (⟨i, dp.getD i [], pp.getD i [],
          (compare_page_worker (dp.getD i []) (pp.getD i [])).1⟩,
         (compare_page_worker (dp.getD i []) (pp.getD i [])).2) := rfl

theorem streaming_totalRemoved (dp pp : List (List String)) (order : List ℕ)
    (fails : ℕ → Bool) :
    (compare_pages_streaming dp pp order fails).totalRemoved
      = (((List.range (max dp.length pp.length)).map (pageResult dp pp fails)).map
          (fun e => e.2.removed)).sum := by
  unfold compare_pages_streaming
  rfl

theorem streaming_totalAdded (dp pp : List (List String)) (order : List ℕ)
    (fails : ℕ → Bool) :
    (compare_pages_streaming dp pp order fails).totalAdded
      = (((List.range (max dp.length pp.length)).map (pageResult dp pp fails)).map
          (fun e => e.2.added)).sum := by
  unfold compare_pages_streaming
  rfl

theorem streaming_totalUnchanged (dp pp : List (List String)) (order : List ℕ)
    (fails : ℕ → Bool) :
    (compare_pages_streaming dp pp order fails).totalUnchanged
      = (((List.range (max dp.length pp.length)).map (pageResult dp pp fails)).map
          (fun e => e.2.unchanged)).sum := by
  unfold compare_pages_streaming
  rfl

theorem streaming_pageDiffs (dp pp : List (List String)) (order : List ℕ)
    (fails : ℕ → Bool) :
    (compare_pages_streaming dp pp order fails).pageDiffs
      = ((List.range (max dp.length pp.length)).map (pageResult dp pp fails)).map
          (fun e => e.1) := by
  unfold compare_pages_streaming
  rfl

set_option maxHeartbeats 2000000 in
theorem streaming_devWords (dp pp : List (List String)) (order : List ℕ)
    (fails : ℕ → Bool) :
    (compare_pages_streaming dp pp order fails).devWords
      = (pyInt (qmul
          (qofNat ((everyTenth
              (((List.range (max dp.length pp.length)).map
                (pageResult dp pp fails)).map (fun e => e.1))).map
            (fun p => countWords (String.join p.devLines).data)).sum)
          (qdivNat
            (qofNat (((List.range (max dp.length pp.length)).map
              (pageResult dp pp fails)).map (fun e => e.1)).length)
            (max (everyTenth
              (((List.range (max dp.length pp.length)).map
                (pageResult dp pp fails)).map (fun e => e.1))).length
              1)))).toNat := by
  unfold compare_pages_streaming
  rfl

set_option maxHeartbeats 2000000 in
theorem streaming_prodWords (dp pp : List (List String)) (order : List ℕ)
    (fails : ℕ → Bool) :
    (compare_pages_streaming dp pp order fails).prodWords
      = (pyInt (qmul
          (qofNat ((everyTenth
              (((List.range (max dp.length pp.length)).map
                (pageResult dp pp fails)).map (fun e => e.1))).map
            (fun p => countWords (String.join p.prodLines).data)).sum)
          (qdivNat
            (qofNat (((List.range (max dp.length pp.length)).map
              (pageResult dp pp fails)).map (fun e => e.1)).length)
            (max (everyTenth
              (((List.range (max dp.length pp.length)).map
                (pageResult dp pp fails)).map (fun e => e.1))).length
              1)))).toNat := by
  unfold compare_pages_streaming
  rfl

theorem everyTenth_map {α β : Type} (f : α → β) (l : List α) :
    everyTenth (l.map f) = (everyTenth l).map f := by
  unfold everyTenth
  rw [List.length_map, List.map_filterMap]
  congr 1
  funext i
  simp [List.get?_eq_getElem?, List.getElem?_map]

theorem words_spec_general (P : List PageEntry) (textOf : PageEntry → List Char) :
    (pyInt (qmul
        (qofNat ((everyTenth P).map (fun p => countWords (textOf p))).sum)
        (qdivNat (qofNat P.length) (max (everyTenth P).length 1)))).toNat
      = specSampledWordCount (P.map textOf) := by
  unfold specSampledWordCount
  dsimp only
  rw [everyTenth_map, List.map_map, List.length_map, List.length_map]
  rfl

theorem pageEntries_noFail_map {α : Type} (dp pp : List (List String))
    (g : PageEntry → α) :
    (((List.range (max dp.length pp.length)).map
        (pageResult dp pp (fun _ => false))).map (fun e => e.1)).map g
      = (List.range (max dp.length pp.length)).map
          (fun i => g ⟨i, dp.getD i [], pp.getD i [],
            (compare_page_worker (dp.getD i []) (pp.getD i [])).1⟩) := by
  rw [List.map_map, List.map_map]
  exact List.map_congr_left (fun i _ => by
    simp only [Function.comp_apply]
    rw [pageResult_noFail])

/-! ## Claims -/

/-- Claim C1 fails on the code: for the identical single-page input
dev = prod = ["hello"], each unit's similarity contribution is indeed
ratio * weight (10 = 1.0 * 10), and the spec's document formula
Σ similarity_weighted / Σ weight evaluates to 1, but the code computes
similarity_ratio = 1/2: the tuple unpacking in the as_completed loop
rebinds the total_chars accumulator to the last completed page's total,
so the denominator becomes 10 + 10 = 20. -/
theorem C1_denominator_shadowing :
    (compare_pages_streaming [["hello"]] [["hello"]] [0]
        (fun _ => false)).similarityRatioVal = mkRat 1 2 ∧
    mkRat 1 2 = 1 / 2 ∧
    (compare_page_worker ["hello"] ["hello"]).2.simWeighted
        = qmul (ratioVal noJunk (String.join ["hello"]).data
            (String.join ["hello"]).data)
          (qofNat (compare_page_worker ["hello"] ["hello"]).2.totalChars) ∧
    specOverallSimilarity
        [((compare_page_worker ["hello"] ["hello"]).2.simWeighted,
          (compare_page_worker ["hello"] ["hello"]).2.totalChars)] = 1 ∧
    mkRat 1 2 ≠ (1 : ℚ) := by
  refine ⟨by decide, ?_, by decide, by decide, by decide⟩
  rw [mkRat_eq_div]
  norm_num

/-- Claim C2 fails on the code: with two identical pages of weights 2 and
4, folding the same set of unit results under completion order [0, 1]
gives similarity_ratio 3/5 while order [1, 0] gives 3/4 — the leaked
total_chars of the last completed page changes the denominator, so the
aggregation is not order-independent. -/
theorem C2_order_dependence :
    (compare_pages_streaming [["a"], ["bb"]] [["a"], ["bb"]] [0, 1]
        (fun _ => false)).similarityRatioVal = mkRat 3 5 ∧
    (compare_pages_streaming [["a"], ["bb"]] [["a"], ["bb"]] [1, 0]
        (fun _ => false)).similarityRatioVal = mkRat 3 4 ∧
    (compare_pages_streaming [["a"], ["bb"]] [["a"], ["bb"]] [0, 1]
        (fun _ => false)).similarityRatioVal
      ≠ (compare_pages_streaming [["a"], ["bb"]] [["a"], ["bb"]] [1, 0]
        (fun _ => false)).similarityRatioVal ∧
    List.Perm [0, 1] (List.range 2) ∧ List.Perm [1, 0] (List.range 2) := by
  refine ⟨by decide, by decide, by decide, by decide, by decide⟩

/-- Claim C4 fails on the code: diffing the identical sequences
dev = prod = ["a"] yields the claimed counts (0 added, 0 removed,
0 modified, 1 unchanged) but overall similarity_ratio 1/2 instead of the
claimed 1.0, because of the total_chars rebinding in the as_completed
loop. -/
theorem C4_identical_similarity :
    (compareRun 500 ["a"] ["a"] [0] (fun _ => false)).map
        (fun A => (A.added, A.removed, A.modified, A.unchanged,
          A.similarityRatioVal))
      = some (0, 0, 0, 1, mkRat 1 2) ∧
    mkRat 1 2 ≠ (1 : ℚ) := by
  refine ⟨by decide, by decide⟩

/-- Claim C6: when diffing unit i raises, the run does not abort — the
page_diffs entry at i is the substituted empty entry (the source stores
page_num i + 1 there), its statistics are all zero with zero weighted
similarity and zero weight, every non-failing unit is still processed
with its real worker output, and document analytics are still aggregated
over all units (the failed unit contributing zero). -/
theorem C6_unit_failure_isolation (devPages prodPages : List (List String))
    (order : List ℕ) (fails : ℕ → Bool) (i : ℕ)
    (hi : i < max devPages.length prodPages.length) (hf : fails i = true) :
    (compare_pages_streaming devPages prodPages order fails).pageDiffs.getD i
        ⟨0, [], [], []⟩ = ⟨i + 1, [], [], []⟩ ∧
    pageResult devPages prodPages fails i
        = (⟨i + 1, [], [], []⟩, ⟨0, 0, 0, 0, qofNat 0, 0⟩) ∧
    (∀ j, j < max devPages.length prodPages.length → fails j = false →
      (compare_pages_streaming devPages prodPages order fails).pageDiffs.getD j
          ⟨0, [], [], []⟩
        = ⟨j, devPages.getD j [], prodPages.getD j [],
            (compare_page_worker (devPages.getD j [])
              (prodPages.getD j [])).1⟩) ∧
    (compare_pages_streaming devPages prodPages order fails).pageDiffs.length
        = max devPages.length prodPages.length ∧
    (compare_pages_streaming devPages prodPages order fails).totalAdded
        = ((List.range (max devPages.length prodPages.length)).map
            (fun j => if fails j then 0
              else (compare_page_worker (devPages.getD j [])
                (prodPages.getD j [])).2.added)).sum := by
  refine ⟨?_, ?_, ?_, ?_, ?_⟩
  · rw [streaming_pageDiffs]
    rw [List.getD_eq_getElem _ _ (by
      rw [List.length_map, List.length_map, List.length_range]; exact hi)]
    simp [pageResult, hf]
  · simp [pageResult, hf]
  · intro j hj hjf
    rw [streaming_pageDiffs]
    rw [List.getD_eq_getElem _ _ (by
      rw [List.length_map, List.length_map, List.length_range]; exact hj)]
    simp [pageResult, hjf]
  · rw [streaming_pageDiffs]
    simp
  · rw [streaming_totalAdded, List.map_map]
    congr 1
    refine List.map_congr_left (fun j _ => ?_)
    simp only [Function.comp_apply]
    unfold pageResult
    by_cases h : fails j <;> simp [h]

set_option maxHeartbeats 2000000 in
/-- Witness for C6: two one-line pages on each side, completion order
[1, 0], unit 0 failing. -/
theorem C6_unit_failure_isolation_witness :
    0 < max ([["a"], ["b"]] : List (List String)).length
        ([["a"], ["b"]] : List (List String)).length ∧
    (fun n => n == 0) 0 = true ∧
    ((compare_pages_streaming [["a"], ["b"]] [["a"], ["b"]] [1, 0]
        (fun n => n == 0)).pageDiffs.getD 0 ⟨0, [], [], []⟩
      = ⟨0 + 1, [], [], []⟩ ∧
    pageResult [["a"], ["b"]] [["a"], ["b"]] (fun n => n == 0) 0
        = (⟨0 + 1, [], [], []⟩, ⟨0, 0, 0, 0, qofNat 0, 0⟩) ∧
    (∀ j, j < max ([["a"], ["b"]] : List (List String)).length
        ([["a"], ["b"]] : List (List String)).length →
      (fun n => n == 0) j = false →
      (compare_pages_streaming [["a"], ["b"]] [["a"], ["b"]] [1, 0]
          (fun n => n == 0)).pageDiffs.getD j ⟨0, [], [], []⟩
        = ⟨j, ([["a"], ["b"]] : List (List String)).getD j [],
            ([["a"], ["b"]] : List (List String)).getD j [],
            (compare_page_worker
              (([["a"], ["b"]] : List (List String)).getD j [])
              (([["a"], ["b"]] : List (List String)).getD j [])).1⟩) ∧
    (compare_pages_streaming [["a"], ["b"]] [["a"], ["b"]] [1, 0]
        (fun n => n == 0)).pageDiffs.length
      = max ([["a"], ["b"]] : List (List String)).length
          ([["a"], ["b"]] : List (List String)).length ∧
    (compare_pages_streaming [["a"], ["b"]] [["a"], ["b"]] [1, 0]
        (fun n => n == 0)).totalAdded
      = ((List.range (max ([["a"], ["b"]] : List (List String)).length
            ([["a"], ["b"]] : List (List String)).length)).map
          (fun j => if (fun n => n == 0) j then 0
            else (compare_page_worker
              (([["a"], ["b"]] : List (List String)).getD j [])
              (([["a"], ["b"]] : List (List String)).getD j [])).2.added)).sum) :=
  ⟨by decide, by decide,
    C6_unit_failure_isolation [["a"], ["b"]] [["a"], ["b"]] [1, 0]
      (fun n => n == 0) 0 (by decide) (by decide)⟩

/-- Counterexample for Claim C7: with both line sequences empty, the
compare() driver fails fast ("if not dev_pages and not prod_pages") and
returns no analytics at all, so no DocumentAnalytics with 100% similarity
is produced. -/
theorem C7_counterexample :
    compareRun 500 ([] : List String) ([] : List String) [] (fun _ => false)
      = none := by
  decide

/-- Claim C7 (amended): with both input line sequences empty, segmentation
produces zero units and the streaming aggregation defaults the similarity
ratio to 1.0 (100%) with all totals (lines, changes, characters, words)
zero; the compare() driver, however, fails fast on this input and returns
no DocumentAnalytics. -/
theorem C7_empty_defaults :
    tasksOf (load_file_by_pages 500 []) (load_file_by_pages 500 []) = [] ∧
    (compare_pages_streaming [] [] [] (fun _ => false)).similarityRatioVal
        = 1 ∧
    (compare_pages_streaming [] [] [] (fun _ => false)).totalAdded = 0 ∧
    (compare_pages_streaming [] [] [] (fun _ => false)).totalRemoved = 0 ∧
    (compare_pages_streaming [] [] [] (fun _ => false)).totalChanged = 0 ∧
    (compare_pages_streaming [] [] [] (fun _ => false)).totalUnchanged = 0 ∧
    (compare_pages_streaming [] [] [] (fun _ => false)).devTotalChars = 0 ∧
    (compare_pages_streaming [] [] [] (fun _ => false)).prodTotalChars = 0 ∧
    (compare_pages_streaming [] [] [] (fun _ => false)).devWords = 0 ∧
    (compare_pages_streaming [] [] [] (fun _ => false)).prodWords = 0 ∧
    (compare_pages_streaming [] [] [] (fun _ => false)).pageDiffs = [] ∧
    compareRun 500 ([] : List String) ([] : List String) [] (fun _ => false)
      = none := by
  decide

/-- Claim C8 fails on the code: running the full pipeline twice on the
same two line sequences with the same unit size produces different
DocumentAnalytics when the worker completion orders of the two runs
differ (similarity_ratio 3/4 vs 3/5), because of the total_chars
rebinding; byte-identical output is not guaranteed (the timestamp field,
not modelled here, differs between runs as well). -/
theorem C8_not_deterministic :
    (compareRun 1 ["ab", "x"] ["ab", "x"] [0, 1] (fun _ => false)).map
        Analytics.similarityRatioVal = some (mkRat 3 4) ∧
    (compareRun 1 ["ab", "x"] ["ab", "x"] [1, 0] (fun _ => false)).map
        Analytics.similarityRatioVal = some (mkRat 3 5) ∧
    compareRun 1 ["ab", "x"] ["ab", "x"] [0, 1] (fun _ => false)
      ≠ compareRun 1 ["ab", "x"] ["ab", "x"] [1, 0] (fun _ => false) ∧
    List.Perm [0, 1] (List.range 2) ∧ List.Perm [1, 0] (List.range 2) := by
  refine ⟨by decide, by decide, by decide, by decide, by decide⟩

/-- Counterexample for Claim C9: the analytics word counts do not expose
whether they are exact or sampled.  Run A (one unit of ten words) reports
dev words 10, which is the exact count; run B (two units of five and
three words) also reports dev words 10 by sampling unit 0 and scaling by
2, while the exact count is 8.  The two outputs carry the same value with
no exactness indicator, so no consumer can tell them apart. -/
theorem C9_sampling_not_exposed :
    (compare_pages_streaming [["w w w w w w w w w w"]] [[""]] [0]
        (fun _ => false)).devWords = 10 ∧
    exactWordCount [(String.join ["w w w w w w w w w w"]).data] = 10 ∧
    (compare_pages_streaming [["w w w w w"], ["a b c"]] [[""], [""]] [0, 1]
        (fun _ => false)).devWords = 10 ∧
    exactWordCount [(String.join ["w w w w w"]).data,
        (String.join ["a b c"]).data] = 8 := by
  refine ⟨by decide, by decide, by decide, by decide⟩

set_option maxHeartbeats 2000000 in
/-- Claim C9 (amended): document word counts are computed by sampling
every tenth unit, summing the sampled units' word counts, and multiplying
by the sampling ratio (number of units over number of sampled units,
truncated with int()), exactly as the spec-side formula
specSampledWordCount states over the per-unit texts; the output does not
indicate whether a count is exact or sampled. -/
theorem C9_sampled_word_formula (devPages prodPages : List (List String))
    (order : List ℕ) :
    (compare_pages_streaming devPages prodPages order (fun _ => false)).devWords
      = specSampledWordCount
          ((List.range (max devPages.length prodPages.length)).map
            (fun i => (String.join (devPages.getD i [])).data)) ∧
    (compare_pages_streaming devPages prodPages order (fun _ => false)).prodWords
      = specSampledWordCount
          ((List.range (max devPages.length prodPages.length)).map
            (fun i => (String.join (prodPages.getD i [])).data)) := by
  constructor
  · rw [streaming_devWords,
      words_spec_general _ (fun p => (String.join p.devLines).data),
      pageEntries_noFail_map]
  · rw [streaming_prodWords,
      words_spec_general _ (fun p => (String.join p.prodLines).data),
      pageEntries_noFail_map]

/-- Claim C3: for every unit size L ≥ 1 and line sequences of n and m
lines, segmentation (load_file_by_pages on each side followed by the task
construction of compare_pages_streaming) produces exactly ceil(max(n,m)/L)
units indexed from 0; unit i takes the slice [i*L, i*L+L) from each side
(a side shorter than i*L contributes an empty slice); and concatenating
all unit slices of one side in index order reproduces that side's original
line sequence. -/
theorem C3_segmentation (L : ℕ) (devLines prodLines : List String)
    (hL : 0 < L) :
    (tasksOf (load_file_by_pages L devLines) (load_file_by_pages L prodLines)).length
        = (max devLines.length prodLines.length + L - 1) / L
    ∧ (∀ i, i < (max devLines.length prodLines.length + L - 1) / L →
        (tasksOf (load_file_by_pages L devLines)
            (load_file_by_pages L prodLines)).getD i ([], [])
          = ((devLines.drop (i * L)).take L, (prodLines.drop (i * L)).take L))
    ∧ ((tasksOf (load_file_by_pages L devLines)
          (load_file_by_pages L prodLines)).map (fun t => t.1)).flatten = devLines
    ∧ ((tasksOf (load_file_by_pages L devLines)
          (load_file_by_pages L prodLines)).map (fun t => t.2)).flatten
        = prodLines := by
  have hmax : max (load_file_by_pages L devLines).length
      (load_file_by_pages L prodLines).length
      = (max devLines.length prodLines.length + L - 1) / L := by
    rw [load_file_by_pages_length, load_file_by_pages_length, max_ceil_div]
  refine ⟨by rw [tasksOf_length, hmax], ?_, ?_, ?_⟩
  · intro i hi
    rw [tasksOf_getD _ _ _ (by rw [hmax]; exact hi)]
    rw [load_file_by_pages_getD L hL, load_file_by_pages_getD L hL]
  · rw [tasksOf_map_fst, hmax]
    exact segment_flatten L hL devLines _
      (by rw [← max_ceil_div]; exact Nat.le_max_left _ _)
  · rw [tasksOf_map_snd, hmax]
    exact segment_flatten L hL prodLines _
      (by rw [← max_ceil_div]; exact Nat.le_max_right _ _)

/-- Claim C10: in every successfully diffed unit, every input line appears
exactly once in the diff tagged added, removed or unchanged, so per unit
removed + unchanged equals the unit's dev line count and added + unchanged
equals its prod line count; summed over all units of a failure-free run,
total removed + total unchanged equals the dev document's line count and
total added + total unchanged equals the prod document's line count. -/
theorem C10_line_conservation (L : ℕ) (devLines prodLines : List String)
    (hL : 0 < L) :
    (∀ i : ℕ,
      (compare_page_worker ((load_file_by_pages L devLines).getD i [])
            ((load_file_by_pages L prodLines).getD i [])).2.removed +
          (compare_page_worker ((load_file_by_pages L devLines).getD i [])
            ((load_file_by_pages L prodLines).getD i [])).2.unchanged
        = ((load_file_by_pages L devLines).getD i []).length ∧
      (compare_page_worker ((load_file_by_pages L devLines).getD i [])
            ((load_file_by_pages L prodLines).getD i [])).2.added +
          (compare_page_worker ((load_file_by_pages L devLines).getD i [])
            ((load_file_by_pages L prodLines).getD i [])).2.unchanged
        = ((load_file_by_pages L prodLines).getD i []).length) ∧
    (compare_pages_streaming (load_file_by_pages L devLines)
          (load_file_by_pages L prodLines)
          (List.range (max (load_file_by_pages L devLines).length
            (load_file_by_pages L prodLines).length))
          (fun _ => false)).totalRemoved +
        (compare_pages_streaming (load_file_by_pages L devLines)
          (load_file_by_pages L prodLines)
          (List.range (max (load_file_by_pages L devLines).length
            (load_file_by_pages L prodLines).length))
          (fun _ => false)).totalUnchanged
      = devLines.length ∧
    (compare_pages_streaming (load_file_by_pages L devLines)
          (load_file_by_pages L prodLines)
          (List.range (max (load_file_by_pages L devLines).length
            (load_file_by_pages L prodLines).length))
          (fun _ => false)).totalAdded +
        (compare_pages_streaming (load_file_by_pages L devLines)
          (load_file_by_pages L prodLines)
          (List.range (max (load_file_by_pages L devLines).length
            (load_file_by_pages L prodLines).length))
          (fun _ => false)).totalUnchanged
      = prodLines.length := by
  refine ⟨fun i => worker_counts _ _, ?_, ?_⟩
  · rw [streaming_totalRemoved, streaming_totalUnchanged, List.map_map,
      List.map_map, sum_map_add]
    have hcong : (List.range (max (load_file_by_pages L devLines).length
          (load_file_by_pages L prodLines).length)).map
          (fun x =>
            ((fun e => e.2.removed) ∘
              pageResult (load_file_by_pages L devLines)
                (load_file_by_pages L prodLines) (fun _ => false)) x +
            ((fun e => e.2.unchanged) ∘
              pageResult (load_file_by_pages L devLines)
                (load_file_by_pages L prodLines) (fun _ => false)) x)
        = (List.range (max (load_file_by_pages L devLines).length
            (load_file_by_pages L prodLines).length)).map
            (fun i => ((load_file_by_pages L devLines).getD i []).length) :=
      List.map_congr_left (fun i _ => by
        simp only [Function.comp_apply]
        rw [pageResult_noFail]
        exact (worker_counts _ _).1)
    rw [hcong, sum_getD_length L hL devLines _
      (by rw [← load_file_by_pages_length]; exact Nat.le_max_left _ _)]
  · rw [streaming_totalAdded, streaming_totalUnchanged, List.map_map,
      List.map_map, sum_map_add]
    have hcong : (List.range (max (load_file_by_pages L devLines).length
          (load_file_by_pages L prodLines).length)).map
          (fun x =>
            ((fun e => e.2.added) ∘
              pageResult (load_file_by_pages L devLines)
                (load_file_by_pages L prodLines) (fun _ => false)) x +
            ((fun e => e.2.unchanged) ∘
              pageResult (load_file_by_pages L devLines)
                (load_file_by_pages L prodLines) (fun _ => false)) x)
        = (List.range (max (load_file_by_pages L devLines).length
            (load_file_by_pages L prodLines).length)).map
            (fun i => ((load_file_by_pages L prodLines).getD i []).length) :=
      List.map_congr_left (fun i _ => by
        simp only [Function.comp_apply]
        rw [pageResult_noFail]
        exact (worker_counts _ _).2)
    rw [hcong, sum_getD_length L hL prodLines _
      (by rw [← load_file_by_pages_length]; exact Nat.le_max_right _ _)]

/-- Witness for C10 at L = 1, dev = ["a", "b"], prod = ["b"]. -/
theorem C10_line_conservation_witness :
    0 < 1 ∧
    ((∀ i : ℕ,
      (compare_page_worker ((load_file_by_pages 1 ["a", "b"]).getD i [])
            ((load_file_by_pages 1 ["b"]).getD i [])).2.removed +
          (compare_page_worker ((load_file_by_pages 1 ["a", "b"]).getD i [])
            ((load_file_by_pages 1 ["b"]).getD i [])).2.unchanged
        = ((load_file_by_pages 1 ["a", "b"]).getD i []).length ∧
      (compare_page_worker ((load_file_by_pages 1 ["a", "b"]).getD i [])
            ((load_file_by_pages 1 ["b"]).getD i [])).2.added +
          (compare_page_worker ((load_file_by_pages 1 ["a", "b"]).getD i [])
            ((load_file_by_pages 1 ["b"]).getD i [])).2.unchanged
        = ((load_file_by_pages 1 ["b"]).getD i []).length) ∧
    (compare_pages_streaming (load_file_by_pages 1 ["a", "b"])
          (load_file_by_pages 1 ["b"])
          (List.range (max (load_file_by_pages 1 ["a", "b"]).length
            (load_file_by_pages 1 ["b"]).length))
          (fun _ => false)).totalRemoved +
        (compare_pages_streaming (load_file_by_pages 1 ["a", "b"])
          (load_file_by_pages 1 ["b"])
          (List.range (max (load_file_by_pages 1 ["a", "b"]).length
            (load_file_by_pages 1 ["b"]).length))
          (fun _ => false)).totalUnchanged
      = (["a", "b"] : List String).length ∧
    (compare_pages_streaming (load_file_by_pages 1 ["a", "b"])
          (load_file_by_pages 1 ["b"])
          (List.range (max (load_file_by_pages 1 ["a", "b"]).length
            (load_file_by_pages 1 ["b"]).length))
          (fun _ => false)).totalAdded +
        (compare_pages_streaming (load_file_by_pages 1 ["a", "b"])
          (load_file_by_pages 1 ["b"])
          (List.range (max (load_file_by_pages 1 ["a", "b"]).length
            (load_file_by_pages 1 ["b"]).length))
          (fun _ => false)).totalUnchanged
      = (["b"] : List String).length) :=
  ⟨by decide, C10_line_conservation 1 ["a", "b"] ["b"] (by decide)⟩

/-- Counterexample for Claim C5: for the unit dev = ["abcd"],
prod = ["abce"], the diff is exactly one heuristically-paired
removed/added pair with its two intraline hint lines, and the worker
counts it once as modified AND also as one added and one removed event,
refuting "never also counted as a separate added event plus a separate
removed event". -/
theorem C5_counterexample :
    (compare_page_worker ["abcd"] ["abce"]).1
      = [(DTag.removed, "abcd"), (DTag.hint, "   ^\n"),
         (DTag.added, "abce"), (DTag.hint, "   ^\n")] ∧
    (compare_page_worker ["abcd"] ["abce"]).2.changed = 1 ∧
    (compare_page_worker ["abcd"] ["abce"]).2.added = 1 ∧
    (compare_page_worker ["abcd"] ["abce"]).2.removed = 1 := by
  refine ⟨by decide, by decide, by decide, by decide⟩

/-- Claim C5 (amended): in every unit the modified count equals the number
of hint lines integer-divided by two, and hint-paired lines remain counted
in the added and removed totals as well: there are at most twice as many
hint lines as added lines and as removed lines, hence modified ≤ added and
modified ≤ removed (each pair contributes one modified, one added and one
removed event). -/
theorem C5_modified_hint_pairs (devLines prodLines : List String) :
    (compare_page_worker devLines prodLines).2.changed
        = countTag DTag.hint (compare_page_worker devLines prodLines).1 / 2 ∧
    countTag DTag.hint (compare_page_worker devLines prodLines).1
        ≤ 2 * (compare_page_worker devLines prodLines).2.added ∧
    countTag DTag.hint (compare_page_worker devLines prodLines).1
        ≤ 2 * (compare_page_worker devLines prodLines).2.removed ∧
    (compare_page_worker devLines prodLines).2.changed
        ≤ (compare_page_worker devLines prodLines).2.added ∧
    (compare_page_worker devLines prodLines).2.changed
        ≤ (compare_page_worker devLines prodLines).2.removed := by
  have h := differ_counts devLines prodLines
  have hs := worker_stats devLines prodLines
  refine ⟨rfl, ?_, ?_, ?_, ?_⟩ <;>
    simp only [hs.1, hs.2.1, hs.2.2.1, hs.2.2.2.1, hs.2.2.2.2] <;> omega

/-- Witness for C3 at L = 2, dev = ["a", "b", "c"], prod = ["x"]. -/
theorem C3_segmentation_witness :
    0 < 2 ∧
    ((tasksOf (load_file_by_pages 2 ["a", "b", "c"]) (load_file_by_pages 2 ["x"])).length
        = (max (["a", "b", "c"] : List String).length (["x"] : List String).length + 2 - 1) / 2
    ∧ (∀ i, i < (max (["a", "b", "c"] : List String).length (["x"] : List String).length + 2 - 1) / 2 →
        (tasksOf (load_file_by_pages 2 ["a", "b", "c"])
            (load_file_by_pages 2 ["x"])).getD i ([], [])
          = (((["a", "b", "c"] : List String).drop (i * 2)).take 2,
             ((["x"] : List String).drop (i * 2)).take 2))
    ∧ ((tasksOf (load_file_by_pages 2 ["a", "b", "c"])
          (load_file_by_pages 2 ["x"])).map (fun t => t.1)).flatten = ["a", "b", "c"]
    ∧ ((tasksOf (load_file_by_pages 2 ["a", "b", "c"])
          (load_file_by_pages 2 ["x"])).map (fun t => t.2)).flatten = ["x"]) :=
  ⟨by decide, C3_segmentation 2 ["a", "b", "c"] ["x"] (by decide)⟩

end CompareApp
